import Mathlib

/-!
# Verification of the grok-outlook-companion ingestion/orchestration pipeline

Shallow embedding of the pipeline code of `src/main.js` (and the renderer
handlers of `src/unnamed/part_002`) of the grok-outlook-companion repository,
together with proofs and refutations of the frozen specification claims.

Strings are modelled as `List Char` (wrapped into `String` at the interfaces);
JavaScript values that can be `null`/`undefined` are modelled with `Option`;
code that can throw returns `Except String` with the thrown message; external
collaborators (filesystem reads, document parsers, OCR, the AI HTTP endpoint)
are supplied as explicit oracle inputs, so that every embedded function is a
total, executable Lean function.
-/

namespace GrokCompanion

/-- The backtick character (code 96), used by the markdown code-span stripper. -/
def btick : Char := Char.ofNat 96

/-- Boolean test: `p` is a leading segment of `s`. -/
def lpre : List Char → List Char → Bool
  | [], _ => true
  | _ :: _, [] => false
  | a :: as, b :: bs => a = b && lpre as bs

/-- Boolean test: `p` occurs contiguously somewhere in `s`. -/
def hasSub (p : List Char) : List Char → Bool
  | [] => p.isEmpty
  | c :: rest => lpre p (c :: rest) || hasSub p rest

/-- JavaScript whitespace (the characters matched by `\s` and removed by
`String.prototype.trim`): ASCII blanks plus the Unicode space class. -/
def isWsJS (c : Char) : Bool :=
  c = ' ' || c = '\t' || c = '\n' || c = '\r' ||
  c = Char.ofNat 0x0b || c = Char.ofNat 0x0c ||
  c = Char.ofNat 0xa0 || c = Char.ofNat 0xfeff ||
  c = Char.ofNat 0x1680 ||
  (Char.ofNat 0x2000 ≤ c && c ≤ Char.ofNat 0x200a) ||
  c = Char.ofNat 0x2028 || c = Char.ofNat 0x2029 ||
  c = Char.ofNat 0x202f || c = Char.ofNat 0x205f || c = Char.ofNat 0x3000

/-- `main.js` `cleanAiOutput` stage 6, `cleaned.replace(/  +/g, ' ')`:
collapse every run of two or more spaces into one space. -/
def collapseSpaces : List Char → List Char
  | [] => []
  | c :: rest =>
    match rest with
    | [] => [c]
    | d :: rest2 =>
      if c = ' ' ∧ d = ' ' then collapseSpaces (d :: rest2)
      else c :: collapseSpaces (d :: rest2)

/-- `main.js` `cleanAiOutput` stage 7, `cleaned.replace(/\n{3,}/g, '\n\n')`:
collapse every run of three or more newlines into two. -/
def collapseNewlines : List Char → List Char
  | [] => []
  | c :: rest =>
    match rest with
    | [] => [c]
    | [d] => [c, d]
    | d :: e :: rest2 =>
      if c = '\n' ∧ d = '\n' ∧ e = '\n' then collapseNewlines (d :: e :: rest2)
      else c :: collapseNewlines (d :: e :: rest2)

/-- Drop leading JavaScript whitespace (the left half of `String.prototype.trim`). -/
def trimLeftWs (l : List Char) : List Char := l.dropWhile isWsJS

/-- Drop trailing JavaScript whitespace: the right half of `String.prototype.trim`,
and also exactly the effect of `replace(/[\n\r\s]+$/g, '')` (`\s` already contains
`\n` and `\r`). -/
def trimRightWs : List Char → List Char
  | [] => []
  | c :: rest =>
    let r := trimRightWs rest
    if r.isEmpty && isWsJS c then [] else c :: r

/-- Helper for stage 1 of `cleanAiOutput`: at a position right after a `<`,
try to match the regex tail `https?:\/\/[^>]+>`.  Returns the captured group
`https?:\/\/[^>]+` (the replacement text) and the input remaining after the
closing `>`.  The regex is deterministic here: `[^>]+` can only stop at the
first `>`, and shortening it can never make the required `>` match. -/
def tryAngleUrl (s : List Char) : Option (List Char × List Char) :=
  let go : List Char → List Char → Option (List Char × List Char) := fun scheme r =>
    let body := r.takeWhile (fun c => c ≠ '>')
    let rest := r.drop body.length
    if body.isEmpty then none
    else
      match rest with
      | '>' :: r2 => some (scheme ++ body, r2)
      | _ => none
  if lpre ['h', 't', 't', 'p', 's', ':', '/', '/'] s then
    go ['h', 't', 't', 'p', 's', ':', '/', '/'] (s.drop 8)
  else if lpre ['h', 't', 't', 'p', ':', '/', '/'] s then
    go ['h', 't', 't', 'p', ':', '/', '/'] (s.drop 7)
  else none

/-- Stage 1 of `cleanAiOutput`: `replace(/<(https?:\/\/[^>]+)>/g, '$1')`,
as a left-to-right scan.  `fuel` only forces termination; the wrapper passes
`length + 1` and every step consumes at least one character, so the `0` case
is never reached from the wrapper. -/
def stripAngleUrlsF : Nat → List Char → List Char
  | 0, s => s
  | _ + 1, [] => []
  | f + 1, c :: rest =>
    if c = '<' then
      match tryAngleUrl rest with
      | some (url, rest2) => url ++ stripAngleUrlsF f rest2
      | none => '<' :: stripAngleUrlsF f rest
    else c :: stripAngleUrlsF f rest

def stripAngleUrls (s : List Char) : List Char := stripAngleUrlsF (s.length + 1) s

/-- Helper for stage 2: right after a `[`, try to match `[^\]]+\]\([^)]+\)`.
Returns the display text (the `$1` replacement) and the remaining input. -/
def tryMdLink (s : List Char) : Option (List Char × List Char) :=
  let txt := s.takeWhile (fun c => c ≠ ']')
  let r1 := s.drop txt.length
  if txt.isEmpty then none
  else
    match r1 with
    | ']' :: '(' :: r2 =>
      let url := r2.takeWhile (fun c => c ≠ ')')
      let r3 := r2.drop url.length
      if url.isEmpty then none
      else
        match r3 with
        | ')' :: r4 => some (txt, r4)
        | _ => none
    | _ => none

/-- Stage 2 of `cleanAiOutput`: `replace(/\[([^\]]+)\]\([^)]+\)/g, '$1')`. -/
def stripMdLinksF : Nat → List Char → List Char
  | 0, s => s
  | _ + 1, [] => []
  | f + 1, c :: rest =>
    if c = '[' then
      match tryMdLink rest with
      | some (txt, rest2) => txt ++ stripMdLinksF f rest2
      | none => '[' :: stripMdLinksF f rest
    else c :: stripMdLinksF f rest

def stripMdLinks (s : List Char) : List Char := stripMdLinksF (s.length + 1) s

/-- Helper for stage 3: right after `**`, try to match `[^*]+\*\*`.  Returns
the emphasised text and the remaining input. -/
def tryBold (s : List Char) : Option (List Char × List Char) :=
  let txt := s.takeWhile (fun c => c ≠ '*')
  let r1 := s.drop txt.length
  if txt.isEmpty then none
  else
    match r1 with
    | '*' :: '*' :: r2 => some (txt, r2)
    | _ => none

/-- Stage 3 of `cleanAiOutput`: `replace(/\*\*([^*]+)\*\*/g, '$1')`.  On a
failed match the scan advances one character, as the regex engine does. -/
def stripBoldF : Nat → List Char → List Char
  | 0, s => s
  | _ + 1, [] => []
  | f + 1, c :: rest =>
    if c = '*' then
      match rest with
      | '*' :: rest2 =>
        match tryBold rest2 with
        | some (txt, rest3) => txt ++ stripBoldF f rest3
        | none => '*' :: stripBoldF f rest
      | _ => '*' :: stripBoldF f rest
    else c :: stripBoldF f rest

def stripBold (s : List Char) : List Char := stripBoldF (s.length + 1) s

/-- Helper for stage 4: right after a `*` whose look-behind passed, try to
match `[^*\n]+\*(?!\*)`.  Returns the emphasised text and the remainder. -/
def tryItalic (s : List Char) : Option (List Char × List Char) :=
  let txt := s.takeWhile (fun c => c ≠ '*' ∧ c ≠ '\n')
  let r1 := s.drop txt.length
  if txt.isEmpty then none
  else
    match r1 with
    | '*' :: r2 => if r2.head? = some '*' then none else some (txt, r2)
    | _ => none

/-- Stage 4 of `cleanAiOutput`:
`replace(/(?<!\n)\*([^*\n]+)\*(?!\*)/g, '$1')`.  The look-behind inspects the
previous character of the original string, carried as `prev` (`none` at the
start of the string, where the look-behind succeeds). -/
def stripItalicF : Nat → Option Char → List Char → List Char
  | 0, _, s => s
  | _ + 1, _, [] => []
  | f + 1, prev, c :: rest =>
    if c = '*' ∧ prev ≠ some '\n' then
      match tryItalic rest with
      | some (txt, rest2) => txt ++ stripItalicF f (some '*') rest2
      | none => '*' :: stripItalicF f (some '*') rest
    else c :: stripItalicF f (some c) rest

def stripItalic (s : List Char) : List Char := stripItalicF (s.length + 1) none s

/-- Helper for stage 5: right after a backtick, try to match `` [^`]+` ``. -/
def tryCode (s : List Char) : Option (List Char × List Char) :=
  let txt := s.takeWhile (fun c => c ≠ btick)
  let r1 := s.drop txt.length
  if txt.isEmpty then none
  else
    match r1 with
    | c :: r2 => if c = btick then some (txt, r2) else none
    | _ => none

/-- Stage 5 of `cleanAiOutput`: strip markdown code spans
(`` replace(/`([^`]+)`/g, '$1') ``). -/
def stripCodeF : Nat → List Char → List Char
  | 0, s => s
  | _ + 1, [] => []
  | f + 1, c :: rest =>
    if c = btick then
      match tryCode rest with
      | some (txt, rest2) => txt ++ stripCodeF f rest2
      | none => btick :: stripCodeF f rest
    else c :: stripCodeF f rest

def stripCode (s : List Char) : List Char := stripCodeF (s.length + 1) s

/-- Stages 6–9 of `cleanAiOutput` applied after the markdown strippers:
space collapsing, newline collapsing, `trim()` (both ends) and the final
`replace(/[\n\r\s]+$/g, '')` (drop trailing whitespace again). -/
def cleanWhitespace (l : List Char) : List Char :=
  trimRightWs (trimRightWs (trimLeftWs (collapseNewlines (collapseSpaces l))))

/-- The whole `cleanAiOutput` pipeline on character lists (the non-empty
branch of the function). -/
def cleanPipeline (l : List Char) : List Char :=
  cleanWhitespace (stripCode (stripItalic (stripBold (stripMdLinks (stripAngleUrls l)))))

/-- `main.js` `cleanAiOutput` (lines 421–452): the Output Sanitizer.
`if (!text) return text` keeps the empty string (and `null`, which the
`String` model does not need) unchanged. -/
def cleanAiOutput (s : String) : String :=
  if s = "" then s else String.mk (cleanPipeline s.data)

/-- The two-space pattern of the regex `/  +/`. -/
def twoSpaces : List Char := [' ', ' ']

/-- The three-newline pattern of the regex `/\n{3,}/`. -/
def threeNewlines : List Char := ['\n', '\n', '\n']

/-- One pass of `result.split(placeholder).join(value)` from
`replacePlaceholders` (`main.js` lines 3306-3327): replace every
(leftmost, non-overlapping) occurrence of `pat` in `s` by `val`.
`fuel` only forces termination; the wrapper passes `length + 1` and every
step consumes at least one character (the placeholders are never empty). -/
def replaceAllF : Nat → List Char → List Char → List Char → List Char
  | 0, _, _, s => s
  | _ + 1, _, _, [] => []
  | f + 1, pat, val, c :: rest =>
    if pat ≠ [] ∧ lpre pat (c :: rest) = true then
      val ++ replaceAllF f pat val ((c :: rest).drop pat.length)
    else
      c :: replaceAllF f pat val rest

def replaceAll (pat val s : List Char) : List Char :=
  replaceAllF (s.length + 1) pat val s

/-- A `Message` snapshot handed to the pipeline (`emailData` in `main.js`):
absent fields are the empty string, matching the falsy-defaulting of the
source (`toField` models the `to` field; `to` is reserved in Lean). -/
structure EmailData where
  body : String := ""
  subject : String := ""
  senderName : String := ""
  senderEmail : String := ""
  toField : String := ""
  cc : String := ""
  receivedTime : String := ""
  entryId : String := ""

def tokEmailBody : List Char := ("{email_body}" : String).data
def tokSubject : List Char := ("{subject}" : String).data
def tokSender : List Char := ("{sender}" : String).data
def tokSenderEmail : List Char := ("{sender_email}" : String).data
def tokSenderName : List Char := ("{sender_name}" : String).data
def tokTo : List Char := ("{to}" : String).data
def tokCc : List Char := ("{cc}" : String).data
def tokDate : List Char := ("{date}" : String).data

/-- The eight placeholder tokens, in the (insertion-ordered) iteration order
of the `replacements` object literal of `replacePlaceholders`. -/
def allTokens : List (List Char) :=
  [tokEmailBody, tokSubject, tokSender, tokSenderEmail, tokSenderName,
   tokTo, tokCc, tokDate]

/-- `{sender}` value: `emailData.senderName || emailData.senderEmail`, defaulting
to the empty string. -/
def senderValue (e : EmailData) : String :=
  if e.senderName = "" then e.senderEmail else e.senderName

/-- The `replacements` object of `replacePlaceholders`, as the ordered
token/value pairs traversed by `Object.entries`. -/
def replacementsOf (e : EmailData) : List (List Char × List Char) :=
  [(tokEmailBody, e.body.data),
   (tokSubject, e.subject.data),
   (tokSender, (senderValue e).data),
   (tokSenderEmail, e.senderEmail.data),
   (tokSenderName, e.senderName.data),
   (tokTo, e.toField.data),
   (tokCc, e.cc.data),
   (tokDate, e.receivedTime.data)]

/-- The `for (const [placeholder, value] of Object.entries(replacements))`
loop: sequential `split`/`join` replacement over the accumulated string. -/
def replacePlaceholdersL (repls : List (List Char × List Char)) (s : List Char) :
    List Char :=
  repls.foldl (fun acc pv => replaceAll pv.1 pv.2 acc) s

/-- `main.js` `replacePlaceholders(template, emailData)`:
`if (!emailData) return template`, otherwise the sequential replacement. -/
def replacePlaceholders (template : String) (e : Option EmailData) : String :=
  match e with
  | none => template
  | some d => String.mk (replacePlaceholdersL (replacementsOf d) template.data)

/-- Uniform AI-call result (`{success, content|error}` objects of `main.js`).
`content` is an `Option` because the source can return `success: true` with a
`null`/`undefined` content field. -/
structure AIResult where
  success : Bool
  content : Option String := none
  error : Option String := none
deriving DecidableEq

/-- `response.data.choices[0].message` shape of an OpenAI-compatible reply. -/
structure GrokMessage where
  content : Option String
deriving DecidableEq

structure GrokChoice where
  message : Option GrokMessage
deriving DecidableEq

structure GrokData where
  choices : Option (List GrokChoice)
deriving DecidableEq

/-- `main.js` `processWithGrokAPI` (lines 275–313), response handling.
The oracle is the outcome of the `axios.post`: `.error msg` models a thrown
network/timeout error (caught by the `catch`, which reports `error.message`),
`.ok d` models a 2xx reply with body `d` (`none` = missing/null `data`).
The guard is `response.data && response.data.choices && response.data.choices[0]`;
when it passes, `choices[0].message.content` is read without further checks:
a missing `message` throws a property-access `TypeError` (caught by the same
`catch`), and a missing/null `content` is returned as a *successful* result. -/
def processWithGrokAPI (outcome : Except String (Option GrokData)) : AIResult :=
  match outcome with
  | .error e => { success := false, error := some e }
  | .ok rdata =>
    match rdata with
    | none => { success := false, error := some "Invalid response from API" }
    | some d =>
      match d.choices with
      | none => { success := false, error := some "Invalid response from API" }
      | some [] => { success := false, error := some "Invalid response from API" }
      | some (c :: _) =>
        match c.message with
        | none =>
          { success := false,
            error := some "Cannot read properties of undefined (reading 'content')" }
        | some m => { success := true, content := m.content }

structure OllamaMessage where
  content : Option String
deriving DecidableEq

structure OllamaData where
  message : Option OllamaMessage
deriving DecidableEq

/-- `main.js` `processWithOllama` (lines 316–354), response handling: the
guard is `response.data && response.data.message`; `message.content` is not
itself validated. -/
def processWithOllama (outcome : Except String (Option OllamaData)) : AIResult :=
  match outcome with
  | .error e => { success := false, error := some e }
  | .ok rdata =>
    match rdata with
    | none => { success := false, error := some "Invalid response from Ollama" }
    | some d =>
      match d.message with
      | none => { success := false, error := some "Invalid response from Ollama" }
      | some m => { success := true, content := m.content }

/-- Smart Shot per-attachment content cap (`main.js` lines 3882–3885):
`if (fileContent.length > 5000) fileContent = fileContent.substring(0, 5000) + '\n... [truncated]'`. -/
def capAttachmentContent (s : String) : String :=
  if s.length > 5000 then String.mk (s.data.take 5000) ++ "\n... [truncated]" else s

/-- Standalone file-analysis content cap (`main.js` lines 4539–4543):
`if (textToAnalyze.length > 50000) textToAnalyze = textToAnalyze.substring(0, 50000) + '\n\n[Document truncated due to length...]'`. -/
def capAnalysisText (s : String) : String :=
  if s.length > 50000 then
    String.mk (s.data.take 50000) ++ "\n\n[Document truncated due to length...]"
  else s

/-- `rateLimiter.maxCalls` of `main.js`. -/
def rlMaxCalls : Nat := 20

/-- `rateLimiter.windowMs` of `main.js` (one minute). -/
def rlWindowMs : Int := 60000

/-- `rateLimiter.check(key)` (`main.js` lines 157–177) for one key: `state`
is the stored timestamp list for the key, `now` the current clock.  Old
timestamps are filtered out; at or above the budget the call is rejected and
the stored state is left unchanged (the source only calls `set` on success). -/
def rlCheck (state : List Int) (now : Int) : Bool × List Int :=
  let windowStart := now - rlWindowMs
  let ts := state.filter (fun t => decide (t > windowStart))
  if ts.length ≥ rlMaxCalls then (false, state)
  else (true, ts ++ [now])

/-- Run a sequence of `rateLimiter.check` calls for one key at the given
times, returning the per-call verdicts and the final stored state. -/
def rlRun (state : List Int) : List Int → List Bool × List Int
  | [] => ([], state)
  | t :: ts =>
    let r := rlCheck state t
    let rest := rlRun r.2 ts
    (r.1 :: rest.1, rest.2)

/-- `main.js` `validateString(value, maxLength)`: the value is always a
string in the model, so only the length check remains. -/
def validateString (value : String) (maxLength : Nat := 10000) : Bool :=
  value.length ≤ maxLength

/-- The `ipcMain.handle('process-with-ai')` entry point (lines 2805–2826):
rate limiting, then input validation, then the AI call.  Returns the handler
result, whether the downstream AI work was started, and the new limiter
state. -/
def processWithAiHandler (state : List Int) (now : Int) (prompt : String)
    (ai : AIResult) : AIResult × Bool × List Int :=
  let r := rlCheck state now
  if !r.1 then
    ({ success := false,
       error := some "Too many AI requests. Please wait a moment and try again." },
     false, r.2)
  else if !(validateString prompt 50000) then
    ({ success := false, error := some "Invalid prompt provided." }, false, r.2)
  else (ai, true, r.2)

/-- `path.basename` on character lists: the final path component (text after
the last `/` or `\\`). -/
def basenameL (l : List Char) : List Char :=
  l.foldl (fun acc c => if c = '/' ∨ c = '\\' then [] else acc ++ [c]) []

/-- `path.basename`: the final path component. -/
def basename (s : String) : String := String.mk (basenameL s.data)

/-- `path.extname(p).toLowerCase()`: the extension from the last dot of the
base name (empty when there is no dot, or only a leading dot), lower-cased as
both call sites in `main.js` do. -/
def extnameLower (s : String) : String :=
  let ds := basenameL s.data
  let afterRev := ds.reverse.takeWhile (fun c => c ≠ '.')
  if afterRev.length = ds.length then ""
  else if ds.length = afterRev.length + 1 then ""
  else String.mk (('.' :: afterRev.reverse).map Char.toLower)

/-- `SUPPORTED_TEXT_EXTENSIONS` (`main.js` line 4068). -/
def SUPPORTED_TEXT_EXTENSIONS : List String :=
  [".txt", ".md", ".json", ".xml", ".html", ".htm", ".css", ".js", ".ts",
   ".py", ".java", ".c", ".cpp", ".h", ".csv", ".log"]

/-- `SUPPORTED_IMAGE_EXTENSIONS` (`main.js` line 4070). -/
def SUPPORTED_IMAGE_EXTENSIONS : List String :=
  [".png", ".jpg", ".jpeg", ".gif", ".webp", ".bmp"]

/-- `String.prototype.trim()` over the JavaScript whitespace class. -/
def jsTrim (s : String) : String := String.mk (trimRightWs (trimLeftWs s.data))

/-- The MIME type chosen for an image extension (`main.js` lines 4165–4167;
note `.bmp` falls into the `image/jpeg` default). -/
def imageMime (ext : String) : String :=
  if ext = ".png" then "image/png"
  else if ext = ".gif" then "image/gif"
  else if ext = ".webp" then "image/webp"
  else "image/jpeg"

/-- Parsed-PDF data as returned by `pdf-parse`: extracted text and page
count. -/
structure PdfData where
  text : String
  numpages : Nat
deriving DecidableEq

/-- Which optional parser libraries loaded at startup (each `require` in
`main.js` is wrapped in try/catch and may leave the library `null`). -/
structure LibAvail where
  pdfParse : Bool := true
  mammoth : Bool := true
  csvParse : Bool := true
  tesseract : Bool := true

/-- Oracle for the file's contents and the external parsers on this path:
`.error m` is a throw with message `m`, caught by the enclosing `catch`
(except the OCR call, whose failure is caught locally). -/
structure FileOracle where
  readText : Except String String := .ok ""
  readBuffer : Except String Unit := .ok ()
  pdf : Except String PdfData := .ok ⟨"", 0⟩
  word : Except String String := .ok ""
  csvRows : Except String (List (List (String × String))) := .ok []
  base64Of : String := ""
  ocr : Except String String := .ok ""

/-- `ExtractionResult`: the result shape of `extractTextFromFile`.  Fields
that a given branch does not set are `none` (absent in the JS object). -/
structure ExtractionResult where
  success : Bool
  text : Option String := none
  type : Option String := none
  pages : Option Nat := none
  rowCount : Option Nat := none
  columns : Option (List String) := none
  isScanned : Option Bool := none
  warning : Option String := none
  hasOcrText : Option Bool := none
  base64 : Option String := none
  mimeType : Option String := none
  fileName : String := ""
  error : Option String := none
deriving DecidableEq

/-- The scanned-PDF warning text of `main.js` line 4119. -/
def scannedPdfWarning : String :=
  "This PDF appears to be scanned/image-based with little extractable text. For best results: 1) Use a PDF with selectable text, or 2) Export pages as images and upload those for OCR analysis."

/-- The placeholder text returned for images whose OCR found no text
(`main.js` line 4190). -/
def imageNoTextPlaceholder : String :=
  "[Image file - OCR found no text, use vision API for analysis]"

/-- One row of the CSV text representation:
`Row ${i+1}: ${Object.entries(row).map(([k,v]) => k + '=' + v).join(', ')}`. -/
def csvRowText (i : Nat) (row : List (String × String)) : String :=
  "Row " ++ toString (i + 1) ++ ": "
    ++ String.intercalate ", " (row.map (fun kv => kv.1 ++ "=" ++ kv.2))

def csvText (rows : List (List (String × String))) : String :=
  String.intercalate "\n" (rows.enum.map (fun p => csvRowText p.1 p.2))

/-- The scanned-PDF heuristic of `extractTextFromFile`:
`avgCharsPerPage < 100 && data.text.trim().length < 50`, with the float
division `data.text.length / (data.numpages || 1) < 100` expressed as the
equivalent integer comparison `text.length < 100 * pages`. -/
def pdfScannedCheck (data : PdfData) : Bool :=
  decide (data.text.length < 100 * (if data.numpages = 0 then 1 else data.numpages))
    && decide ((jsTrim data.text).length < 50)

/-- `main.js` `extractTextFromFile` (lines 4073–4212).  The whole dispatch is
wrapped in try/catch: any oracle `.error` flows to the catch clause, which
returns `success: false` with the thrown message — the function itself never
raises.  The `avgCharsPerPage < 100` float comparison is modelled by the
equivalent integer comparison `text.length < 100 * pages` (with
`data.numpages || 1` as divisor). -/
def extractTextFromFile (filePath : String) (av : LibAvail) (o : FileOracle) :
    ExtractionResult :=
  let ext := extnameLower filePath
  let fileName := basename filePath
  let caught : String → ExtractionResult := fun m =>
    { success := false, error := some m, fileName := fileName }
  if ext ∈ SUPPORTED_TEXT_EXTENSIONS then
    match o.readText with
    | .error m => caught m
    | .ok content =>
      { success := true, text := some content, type := some "text",
        fileName := fileName }
  else if ext = ".pdf" then
    if ¬ av.pdfParse then
      { success := false,
        error := some "PDF parsing library not available. Please restart the app.",
        fileName := fileName }
    else
      match o.readBuffer with
      | .error m => caught m
      | .ok _ =>
        match o.pdf with
        | .error m => caught m
        | .ok data =>
          if pdfScannedCheck data then
            { success := true, text := some data.text, type := some "pdf",
              pages := some data.numpages, fileName := fileName,
              isScanned := some true, warning := some scannedPdfWarning }
          else
            { success := true, text := some data.text, type := some "pdf",
              pages := some data.numpages, fileName := fileName,
              isScanned := some false }
  else if (ext = ".docx" ∨ ext = ".doc") ∧ av.mammoth then
    match o.word with
    | .error m => caught m
    | .ok v =>
      { success := true, text := some v, type := some "word",
        fileName := fileName }
  else if ext = ".csv" ∧ av.csvParse then
    -- dead in practice: ".csv" is already in SUPPORTED_TEXT_EXTENSIONS
    match o.readText with
    | .error m => caught m
    | .ok _ =>
      match o.csvRows with
      | .error m => caught m
      | .ok records =>
        { success := true, text := some (csvText records), type := some "csv",
          rowCount := some records.length,
          columns := some ((records.headD []).map Prod.fst),
          fileName := fileName }
  else if ext ∈ SUPPORTED_IMAGE_EXTENSIONS then
    match o.readBuffer with
    | .error m => caught m
    | .ok _ =>
      let mimeType := imageMime ext
      let ocrText := if av.tesseract then
          match o.ocr with
          | .ok t => jsTrim t
          | .error _ => ""   -- OCR failure is caught locally; fall back to vision
        else ""
      { success := true,
        text := some (if ocrText = "" then imageNoTextPlaceholder else ocrText),
        type := some "image",
        hasOcrText := some (decide (ocrText.length > 0)),
        base64 := some o.base64Of, mimeType := some mimeType,
        fileName := fileName }
  else
    { success := false, error := some ("Unsupported file type: " ++ ext),
      fileName := fileName }

/-- One harvested attachment as returned by the C# COM harvester
(`fileName`, `savedPath`; size and extension are not used by the loop).
The JS truthiness checks treat the empty string as a missing field. -/
structure Attachment where
  fileName : String := ""
  savedPath : String := ""
deriving DecidableEq

/-- Outcome of the inline extraction dispatch of the Smart Shot attachment
loop (`main.js` lines 3826–3880) for one file: either the extracted
`fileContent` (pdf/docx/txt/csv/xlsx/image branches, empty when no branch or
library applies) or a thrown error caught by the loop's `catch`. -/
inductive ExtractOutcome where
  | ok (content : String)
  | err (msg : String)
deriving DecidableEq

/-- Per-attachment oracles: the extraction outcome and the result of the
per-file `processWithAI(keyInfoPrompt, null)` summarisation call. -/
structure AttachOracle where
  extract : ExtractOutcome := .ok ""
  aiSummary : AIResult := { success := true }
deriving DecidableEq

/-- An entry of `results.attachmentSummaries`.  `summary` is an `Option`
because the source can push `keyInfoResult.content`, which may be absent. -/
structure AttachmentSummary where
  filename : String
  summary : Option String
  type : String
  charCount : Option Nat := none
deriving DecidableEq

/-- The body of the Smart Shot per-attachment loop (`main.js` lines
3804–3929) for one attachment: the defensive skip (missing name/path pushes
nothing), the try/catch around extraction, the 5000-char cap, the no-text
marker, and the per-file AI summarisation with its error marker.  Returns
the summaries pushed for this attachment (none or one). -/
def processAttachment (att : Attachment) (o : AttachOracle) :
    List AttachmentSummary :=
  let attachName := att.fileName
  let attachPath := att.savedPath
  if attachName = "" ∨ attachPath = "" then []
  else
    let ext := extnameLower attachName
    match o.extract with
    | .err m =>
      [{ filename := attachName, summary := some ("[Error: " ++ m ++ "]"),
         type := if ext = "" then "unknown" else ext }]
    | .ok raw =>
      let fileContent := capAttachmentContent raw
      if jsTrim fileContent = "" then
        [{ filename := attachName,
           summary := some "[Could not extract text from this file]",
           type := ext }]
      else
        let r := o.aiSummary
        [{ filename := attachName,
           summary := if r.success then r.content
             else some "[Error extracting key info]",
           type := ext, charCount := some fileContent.length }]

/-- A stored prompt template (id, display name, template text). -/
structure Prompt where
  id : String
  name : String
  template : String
deriving DecidableEq

/-- The combined-prompt construction shared by One Shot
(`process-with-multi-prompts`, lines 3704–3734) and Smart Shot step 4
(lines 3944–3974): selected templates in user order, each with a `###`
header, placeholder substitution, the fallback instruction when nothing was
selected, and the one-time quick-notes block.  (The usage-counter increment
and `savePrompts` persistence are store effects with no bearing on the
produced text and are elided.)  Returns the combined prompt and the used
template names. -/
def buildCombinedPrompt (prompts : List Prompt) (promptIds : List String)
    (e : EmailData) (quickNotes : String) : String × List String :=
  let base := promptIds.foldl (fun acc pid =>
    match prompts.find? (fun p => p.id == pid) with
    | some p =>
      (acc.1 ++ "### " ++ p.name ++ ":\n"
        ++ replacePlaceholders p.template (some e) ++ "\n\n", acc.2 ++ [p.name])
    | none => acc) ("", [])
  let combined :=
    if base.1 = "" then "Please analyze and respond to this email:" else base.1
  let combined :=
    if ¬ jsTrim quickNotes = "" then
      combined ++ "\n### Additional Instructions (one-time):\n"
        ++ jsTrim quickNotes ++ "\n"
    else combined
  (combined, base.2)

/-- Smart Shot step 3 (`main.js` lines 3933–3941): the attachment-summaries
block appended to the combined prompt (empty when there are no summaries).
A missing summary prints as `undefined`, as the JS template literal does. -/
def buildAttachmentContext (summaries : List AttachmentSummary) : String :=
  if summaries.isEmpty then ""
  else
    "\n\n--- ATTACHMENT SUMMARIES ---\n"
      ++ summaries.foldl (fun acc att =>
          acc ++ "\n📄 File: " ++ att.filename ++ "\nKey Information:\n"
            ++ att.summary.getD "undefined" ++ "\n") ""
      ++ "\n--- END ATTACHMENTS ---\n"
      ++ "\nPlease consider both the email content AND the attachment information above when drafting your response."

/-- `processWithAI` user-content construction (`main.js` line 465): the
prompt plus the delimited email block when email data is supplied. -/
def buildUserContent (prompt : String) (e : Option EmailData) : String :=
  match e with
  | none => prompt
  | some d =>
    prompt ++ "\n\n--- EMAIL ---\nSubject: " ++ d.subject ++ "\nFrom: "
      ++ d.senderName ++ " <" ++ d.senderEmail ++ ">\nTo: " ++ d.toField
      ++ "\nDate: " ++ d.receivedTime ++ "\n\n" ++ d.body
      ++ "\n--- END EMAIL ---"

/-- Observable pipeline actions: the main AI invocation, best-effort deletion
of a temporary attachment file, and the `createReplyInOutlook` call made by
the renderer. -/
inductive PipeAction where
  | invokeMainAI (userContent : String)
  | deleteTempFile (path : String)
  | createReply (entryId : String) (body : Option String) (replyAll : Bool)
deriving DecidableEq

/-- Result of the attachment-harvesting collaborator (`getAttachments`). -/
structure AttachFetch where
  success : Bool := true
  attachments : List Attachment := []

/-- The `smart-shot` IPC handler's return object. -/
structure SmartShotResponse where
  success : Bool
  error : Option String := none
  attachmentSummaries : List AttachmentSummary := []
  aiResult : AIResult := { success := false }
  usedPrompts : List String := []
  hadQuickNotes : Bool := false
deriving DecidableEq

/-- The `ipcMain.handle('smart-shot')` pipeline (`main.js` lines 3751–4008):
attachment harvesting (skipped without an `entryId` or on a failed fetch),
the sequential per-attachment loop, prompt composition, the main AI
invocation, and the unconditional best-effort temp-file cleanup that follows
it.  `mainAI` is the AI collaborator, `fsExists` the `fs.existsSync` oracle.
Returns the handler response and the ordered action trace. -/
def smartShotHandler (e : EmailData) (af : AttachFetch)
    (oracles : List AttachOracle) (prompts : List Prompt)
    (promptIds : List String) (quickNotes : String)
    (mainAI : String → AIResult) (fsExists : String → Bool) :
    SmartShotResponse × List PipeAction :=
  let attachments := if ¬ e.entryId = "" ∧ af.success = true then af.attachments else []
  let summaries :=
    (attachments.zip oracles).flatMap (fun ao => processAttachment ao.1 ao.2)
  let attachmentContext := buildAttachmentContext summaries
  let bp := buildCombinedPrompt prompts promptIds e quickNotes
  let userContent := buildUserContent (bp.1 ++ attachmentContext) (some e)
  let aiResult := mainAI userContent
  let cleanups := attachments.filterMap (fun a =>
    if ¬ a.savedPath = "" ∧ fsExists a.savedPath = true then
      some (PipeAction.deleteTempFile a.savedPath)
    else none)
  ({ success := true, attachmentSummaries := summaries, aiResult := aiResult,
     usedPrompts := bp.2,
     hadQuickNotes := decide (¬ jsTrim quickNotes = "") },
   PipeAction.invokeMainAI userContent :: cleanups)

/-- The renderer's `handleSmartShot` continuation (`part_002` lines
730–777): on a failed handler or failed AI result it shows an error and
returns *before* step 3, so `createReplyInOutlook` is only called for a
successful AI result (and a present `entryId`), with reply-all `true`. -/
def smartShotRenderer (e : EmailData) (resp : SmartShotResponse) :
    List PipeAction :=
  if ¬ resp.success = true then []
  else if ¬ resp.aiResult.success = true then []
  else if e.entryId = "" then []
  else [PipeAction.createReply e.entryId resp.aiResult.content true]

/-- A full Smart Shot run: the main-process handler followed by the
renderer's delivery step. -/
def smartShotRun (e : EmailData) (af : AttachFetch)
    (oracles : List AttachOracle) (prompts : List Prompt)
    (promptIds : List String) (quickNotes : String)
    (mainAI : String → AIResult) (fsExists : String → Bool) :
    SmartShotResponse × List PipeAction :=
  let hr := smartShotHandler e af oracles prompts promptIds quickNotes mainAI fsExists
  (hr.1, hr.2 ++ smartShotRenderer e hr.1)

/-- The `process-with-multi-prompts` handler's return object. -/
structure MultiPromptResponse where
  success : Bool
  content : Option String := none
  error : Option String := none
  usedPrompts : List String := []
  hadQuickNotes : Bool := false
deriving DecidableEq

/-- `ipcMain.handle('process-with-multi-prompts')` (lines 3699–3748): prompt
composition and one AI invocation; the result is spread into the response
together with the used template names. -/
def processWithMultiPrompts (prompts : List Prompt) (promptIds : List String)
    (e : EmailData) (quickNotes : String) (mainAI : String → AIResult) :
    MultiPromptResponse × List PipeAction :=
  let bp := buildCombinedPrompt prompts promptIds e quickNotes
  let userContent := buildUserContent bp.1 (some e)
  let r := mainAI userContent
  ({ success := r.success, content := r.content, error := r.error,
     usedPrompts := bp.2,
     hadQuickNotes := decide (¬ jsTrim quickNotes = "") },
   [PipeAction.invokeMainAI userContent])

/-- The renderer's `handleOneShot` continuation (`part_002` lines 637–671):
a failed AI result returns before `createReplyInOutlook`. -/
def oneShotRenderer (e : EmailData) (resp : MultiPromptResponse) :
    List PipeAction :=
  if ¬ resp.success = true then []
  else if e.entryId = "" then []
  else [PipeAction.createReply e.entryId resp.content true]

/-- A full One Shot run (no attachment processing, no temp files). -/
def oneShotRun (prompts : List Prompt) (promptIds : List String)
    (e : EmailData) (quickNotes : String) (mainAI : String → AIResult) :
    MultiPromptResponse × List PipeAction :=
  let hr := processWithMultiPrompts prompts promptIds e quickNotes mainAI
  (hr.1, hr.2 ++ oneShotRenderer e hr.1)

/-- Concrete message for the witnesses. -/
def exampleEmail : EmailData :=
  { entryId := "ID1", subject := "Q3 Budget", body := "Please review by Friday" }

/-- Concrete harvested attachments for the witnesses. -/
def exampleAttachments : List Attachment :=
  [{ fileName := "a.txt", savedPath := "/tmp/a.txt" },
   { fileName := "b.pdf", savedPath := "/tmp/b.pdf" },
   { fileName := "c.txt", savedPath := "/tmp/c.txt" }]

/-- Concrete per-attachment outcomes for the witnesses: the middle
attachment's extraction throws, the last one's per-file AI call fails. -/
def exampleOracles : List AttachOracle :=
  [{ extract := .ok "alpha", aiSummary := { success := true, content := some "* A" } },
   { extract := .err "parse failed" },
   { extract := .ok "gamma",
     aiSummary := { success := false, error := some "timeout" } }]

-- ===== THEOREMS =====

theorem lpre_self_append (p t : List Char) : lpre p (p ++ t) = true := by
  induction p with
  | nil => rfl
  | cons a as ih => simpa [lpre] using ih

theorem lpre_mono {p x : List Char} (t : List Char) (h : lpre p x = true) :
    lpre p (x ++ t) = true := by
  induction p generalizing x with
  | nil => rfl
  | cons a as ih =>
    cases x with
    | nil => simp [lpre] at h
    | cons b bs =>
      simp only [lpre, Bool.and_eq_true, decide_eq_true_eq] at h
      simp only [List.cons_append, lpre, Bool.and_eq_true, decide_eq_true_eq]
      exact ⟨h.1, ih h.2⟩

theorem hasSub_cons (p : List Char) (c : Char) (rest : List Char) :
    hasSub p (c :: rest) = (lpre p (c :: rest) || hasSub p rest) := rfl

theorem hasSub_of_empty (t : List Char) : hasSub [] t = true := by
  cases t <;> simp [hasSub, lpre, List.isEmpty]

theorem hasSub_append_right {p x : List Char} (t : List Char) (h : hasSub p x = true) :
    hasSub p (x ++ t) = true := by
  induction x with
  | nil =>
    have hp : p = [] := by
      cases p with
      | nil => rfl
      | cons a as => simp [hasSub, List.isEmpty] at h
    subst hp
    exact hasSub_of_empty t
  | cons c cs ih =>
    rw [hasSub_cons, Bool.or_eq_true] at h
    rw [List.cons_append, hasSub_cons, Bool.or_eq_true]
    rcases h with h1 | h2
    · exact Or.inl (by simpa using lpre_mono t h1)
    · exact Or.inr (ih h2)

theorem hasSub_append_left {p y : List Char} (x : List Char) (h : hasSub p y = true) :
    hasSub p (x ++ y) = true := by
  induction x with
  | nil => exact h
  | cons c cs ih =>
    rw [List.cons_append, hasSub_cons, Bool.or_eq_true]
    exact Or.inr ih

theorem hasSub_tail {p : List Char} {c : Char} {rest : List Char}
    (h : hasSub p (c :: rest) = false) : hasSub p rest = false := by
  rw [hasSub_cons] at h
  exact (Bool.or_eq_false_iff.1 h).2

theorem lpre2_false {c d : Char} (t : List Char) (h : ¬ (c = ' ' ∧ d = ' ')) :
    lpre twoSpaces (c :: d :: t) = false := by
  by_cases hc : (' ' : Char) = c
  · by_cases hd : (' ' : Char) = d
    · exact absurd ⟨hc.symm, hd.symm⟩ h
    · simp [twoSpaces, lpre, hd]
  · simp [twoSpaces, lpre, hc]

theorem lpre3_false {c d e : Char} (t : List Char)
    (h : ¬ (c = '\n' ∧ d = '\n' ∧ e = '\n')) :
    lpre threeNewlines (c :: d :: e :: t) = false := by
  by_cases hc : ('\n' : Char) = c
  · by_cases hd : ('\n' : Char) = d
    · by_cases he : ('\n' : Char) = e
      · exact absurd ⟨hc.symm, hd.symm, he.symm⟩ h
      · simp [threeNewlines, lpre, he]
    · simp [threeNewlines, lpre, hd]
  · simp [threeNewlines, lpre, hc]

theorem collapseSpaces_cons (c : Char) (r : List Char) :
    ∃ t, collapseSpaces (c :: r) = c :: t := by
  induction r generalizing c with
  | nil => exact ⟨[], rfl⟩
  | cons d r2 ih =>
    by_cases h : c = ' ' ∧ d = ' '
    · rcases ih d with ⟨t, ht⟩
      have e1 : collapseSpaces (c :: d :: r2) = collapseSpaces (d :: r2) := by
        simp only [collapseSpaces, if_pos h]
      exact ⟨t, by rw [e1, ht, h.1, h.2]⟩
    · exact ⟨collapseSpaces (d :: r2), by simp only [collapseSpaces, if_neg h]⟩

theorem noDbl_collapseSpaces (s : List Char) :
    hasSub twoSpaces (collapseSpaces s) = false := by
  induction s with
  | nil => rfl
  | cons c r ih =>
    cases r with
    | nil => simp [collapseSpaces, hasSub, lpre, twoSpaces, List.isEmpty]
    | cons d r2 =>
      by_cases h : c = ' ' ∧ d = ' '
      · simpa only [collapseSpaces, if_pos h] using ih
      · rcases collapseSpaces_cons d r2 with ⟨t, ht⟩
        simp only [collapseSpaces, if_neg h, hasSub_cons, Bool.or_eq_false_iff]
        refine ⟨?_, ih⟩
        rw [ht]
        exact lpre2_false t h

theorem collapseSpaces_id_of_noDbl {s : List Char}
    (h : hasSub twoSpaces s = false) : collapseSpaces s = s := by
  induction s with
  | nil => rfl
  | cons c r ih =>
    cases r with
    | nil => rfl
    | cons d r2 =>
      have hcd : ¬ (c = ' ' ∧ d = ' ') := by
        rintro ⟨hc, hd⟩
        rw [hasSub_cons] at h
        have : lpre twoSpaces (c :: d :: r2) = true := by
          simp [twoSpaces, lpre, hc, hd]
        simp [this] at h
      have := ih (hasSub_tail h)
      simp only [collapseSpaces, if_neg hcd, this]

theorem collapseNewlines_cons (c : Char) (r : List Char) :
    ∃ t, collapseNewlines (c :: r) = c :: t := by
  induction r generalizing c with
  | nil => exact ⟨[], rfl⟩
  | cons d r2 ih =>
    cases r2 with
    | nil => exact ⟨[d], rfl⟩
    | cons e r3 =>
      by_cases h : c = '\n' ∧ d = '\n' ∧ e = '\n'
      · rcases ih d with ⟨t, ht⟩
        have e1 : collapseNewlines (c :: d :: e :: r3) = collapseNewlines (d :: e :: r3) := by
          simp only [collapseNewlines, if_pos h]
        exact ⟨t, by rw [e1, ht, h.1, h.2.1]⟩
      · exact ⟨collapseNewlines (d :: e :: r3), by simp only [collapseNewlines, if_neg h]⟩

theorem collapseNewlines_cons_cons {d e : Char} {r : List Char}
    (he : ¬ e = '\n') :
    ∃ t2, collapseNewlines (d :: e :: r) = d :: e :: t2 := by
  cases r with
  | nil => exact ⟨[], rfl⟩
  | cons g r4 =>
    have hcond : ¬ (d = '\n' ∧ e = '\n' ∧ g = '\n') := fun hx => he hx.2.1
    rcases collapseNewlines_cons e (g :: r4) with ⟨t3, ht3⟩
    refine ⟨t3, ?_⟩
    have : collapseNewlines (d :: e :: g :: r4) = d :: collapseNewlines (e :: g :: r4) := by
      simp only [collapseNewlines, if_neg hcond]
    rw [this, ht3]

theorem noTri_collapseNewlines (s : List Char) :
    hasSub threeNewlines (collapseNewlines s) = false := by
  induction s with
  | nil => rfl
  | cons c r ih =>
    cases r with
    | nil => simp [collapseNewlines, hasSub, lpre, threeNewlines, List.isEmpty]
    | cons d r2 =>
      cases r2 with
      | nil =>
        simp [collapseNewlines, hasSub, lpre, threeNewlines, List.isEmpty]
      | cons e r3 =>
        by_cases h : c = '\n' ∧ d = '\n' ∧ e = '\n'
        · simpa only [collapseNewlines, if_pos h] using ih
        · simp only [collapseNewlines, if_neg h, hasSub_cons, Bool.or_eq_false_iff]
          refine ⟨?_, ih⟩
          by_cases hc : c = '\n'
          · by_cases hd : d = '\n'
            · have he : ¬ e = '\n' := fun he => h ⟨hc, hd, he⟩
              rcases @collapseNewlines_cons_cons d e r3 he with ⟨t2, ht2⟩
              rw [ht2]
              exact lpre3_false t2 h
            · rcases collapseNewlines_cons d (e :: r3) with ⟨t, ht⟩
              rw [ht]
              have hdd : decide (('\n' : Char) = d) = false :=
                decide_eq_false (fun hx => hd hx.symm)
              simp [threeNewlines, lpre, hdd]
          · rcases collapseNewlines_cons d (e :: r3) with ⟨t, ht⟩
            rw [ht]
            have hcc : decide (('\n' : Char) = c) = false :=
              decide_eq_false (fun hx => hc hx.symm)
            simp [threeNewlines, lpre, hcc]

theorem collapseNewlines_id_of_noTri {s : List Char}
    (h : hasSub threeNewlines s = false) : collapseNewlines s = s := by
  induction s with
  | nil => rfl
  | cons c r ih =>
    cases r with
    | nil => rfl
    | cons d r2 =>
      cases r2 with
      | nil => rfl
      | cons e r3 =>
        have hcde : ¬ (c = '\n' ∧ d = '\n' ∧ e = '\n') := by
          rintro ⟨hc, hd, he⟩
          rw [hasSub_cons] at h
          have : lpre threeNewlines (c :: d :: e :: r3) = true := by
            simp [threeNewlines, lpre, hc, hd, he]
          simp [this] at h
        have := ih (hasSub_tail h)
        simp only [collapseNewlines, if_neg hcde, this]

theorem collapseNewlines_preserves_noDbl {s : List Char}
    (h : hasSub twoSpaces s = false) :
    hasSub twoSpaces (collapseNewlines s) = false := by
  induction s with
  | nil => exact h
  | cons c r ih =>
    cases r with
    | nil => exact h
    | cons d r2 =>
      cases r2 with
      | nil => exact h
      | cons e r3 =>
        by_cases hc : c = '\n' ∧ d = '\n' ∧ e = '\n'
        · simpa only [collapseNewlines, if_pos hc] using ih (hasSub_tail h)
        · rcases collapseNewlines_cons d (e :: r3) with ⟨t, ht⟩
          simp only [collapseNewlines, if_neg hc, hasSub_cons, Bool.or_eq_false_iff]
          refine ⟨?_, ih (hasSub_tail h)⟩
          rw [ht]
          rw [hasSub_cons, Bool.or_eq_false_iff] at h
          refine lpre2_false t ?_
          rintro ⟨h1, h2⟩
          have : lpre twoSpaces (c :: d :: e :: r3) = true := by
            simp [twoSpaces, lpre, h1, h2]
          rw [this] at h
          exact absurd h.1 (by simp)

theorem trimLeftWs_decomp (s : List Char) :
    s = s.takeWhile isWsJS ++ trimLeftWs s := by
  rw [trimLeftWs, List.takeWhile_append_dropWhile]

theorem hasSub_trimLeftWs {p s : List Char} (h : hasSub p s = false) :
    hasSub p (trimLeftWs s) = false := by
  by_contra hx
  have hx2 : hasSub p (trimLeftWs s) = true := by
    cases hv : hasSub p (trimLeftWs s) with
    | false => exact absurd hv hx
    | true => rfl
  have := hasSub_append_left (s.takeWhile isWsJS) hx2
  rw [← trimLeftWs_decomp] at this
  rw [this] at h
  exact absurd h (by simp)

theorem trimRightWs_decomp (s : List Char) :
    ∃ t, s = trimRightWs s ++ t := by
  induction s with
  | nil => exact ⟨[], rfl⟩
  | cons c rest ih =>
    rcases ih with ⟨t, ht⟩
    by_cases h : (trimRightWs rest).isEmpty && isWsJS c
    · exact ⟨c :: rest, by simp [trimRightWs, h]⟩
    · refine ⟨t, ?_⟩
      simp only [trimRightWs, if_neg h, List.cons_append]
      exact congrArg (c :: ·) ht

theorem hasSub_trimRightWs {p s : List Char} (h : hasSub p s = false) :
    hasSub p (trimRightWs s) = false := by
  rcases trimRightWs_decomp s with ⟨t, ht⟩
  by_contra hx
  have hx2 : hasSub p (trimRightWs s) = true := by
    cases hv : hasSub p (trimRightWs s) with
    | false => exact absurd hv hx
    | true => rfl
  have := hasSub_append_right t hx2
  rw [← ht] at this
  rw [this] at h
  exact absurd h (by simp)

theorem trimRightWs_idem (s : List Char) :
    trimRightWs (trimRightWs s) = trimRightWs s := by
  induction s with
  | nil => rfl
  | cons c rest ih =>
    by_cases h : (trimRightWs rest).isEmpty && isWsJS c
    · simp [trimRightWs, h]
    · simp only [trimRightWs, if_neg h]
      simp only [trimRightWs, ih, if_neg h]

theorem trimRightWs_cons_shape (x : List Char) :
    trimRightWs x = [] ∨ ∃ c t, x.head? = some c ∧ trimRightWs x = c :: t := by
  cases x with
  | nil => exact Or.inl rfl
  | cons c rest =>
    by_cases h : (trimRightWs rest).isEmpty && isWsJS c
    · exact Or.inl (by simp [trimRightWs, h])
    · exact Or.inr ⟨c, trimRightWs rest, rfl, by simp [trimRightWs, h]⟩

theorem dropWhile_head_not {p : Char → Bool} {l : List Char} {c : Char} {t : List Char}
    (h : l.dropWhile p = c :: t) : p c = false := by
  induction l with
  | nil => exact absurd h (by simp)
  | cons a l2 ih =>
    rw [List.dropWhile_cons] at h
    by_cases hp : p a = true
    · exact ih (by rwa [if_pos hp] at h)
    · rw [if_neg hp] at h
      have : a = c := (List.cons.inj h).1
      subst this
      exact Bool.eq_false_iff.2 hp

theorem trimLeftWs_id_of_head {s : List Char}
    (h : ∀ c t, s = c :: t → isWsJS c = false) : trimLeftWs s = s := by
  cases s with
  | nil => rfl
  | cons c t =>
    rw [trimLeftWs, List.dropWhile_cons, if_neg]
    simp [h c t rfl]

theorem cleanWhitespace_idem (l : List Char) :
    cleanWhitespace (cleanWhitespace l) = cleanWhitespace l := by
  have f1 : hasSub twoSpaces (collapseSpaces l) = false := noDbl_collapseSpaces l
  have f2 : hasSub twoSpaces (collapseNewlines (collapseSpaces l)) = false :=
    collapseNewlines_preserves_noDbl f1
  have f3 : hasSub threeNewlines (collapseNewlines (collapseSpaces l)) = false :=
    noTri_collapseNewlines (collapseSpaces l)
  set b := collapseNewlines (collapseSpaces l) with hb
  set c := trimLeftWs b with hc
  set d := trimRightWs c with hd
  set e := trimRightWs d with he
  have f4 : hasSub twoSpaces c = false := hasSub_trimLeftWs f2
  have f5 : hasSub threeNewlines c = false := hasSub_trimLeftWs f3
  have f6 : hasSub twoSpaces e = false := hasSub_trimRightWs (hasSub_trimRightWs f4)
  have f7 : hasSub threeNewlines e = false := hasSub_trimRightWs (hasSub_trimRightWs f5)
  have hW : cleanWhitespace l = e := rfl
  have hSp : collapseSpaces e = e := collapseSpaces_id_of_noDbl f6
  have hN : collapseNewlines e = e := collapseNewlines_id_of_noTri f7
  have hTL : trimLeftWs e = e := by
    refine trimLeftWs_id_of_head ?_
    intro ch t hcons
    rcases trimRightWs_cons_shape d with hd0 | ⟨c1, t1, hh1, hh2⟩
    · rw [he, hd0] at hcons
      exact absurd hcons (by simp)
    · rcases trimRightWs_cons_shape c with hc0 | ⟨c2, t2, hh3, hh4⟩
      · rw [hd, hc0] at hh1
        exact absurd hh1 (by simp)
      · have hch : ch = c1 := by
          rw [he, hh2] at hcons
          exact ((List.cons.inj hcons).1).symm
        have hc1 : c1 = c2 := by
          rw [hd, hh4] at hh1
          simp at hh1
          exact hh1.symm
        rcases hc2 : c with hnil | ⟨c3, t3⟩
        · rw [hc2] at hh3
          exact absurd hh3 (by simp)
        · have hc3 : c2 = c3 := by
            rw [hc2] at hh3
            simp at hh3
            exact hh3.symm
          have : c3 :: t3 = trimLeftWs b := by rw [← hc2, hc]
          have hws : isWsJS c3 = false := @dropWhile_head_not isWsJS b c3 t3 (by rw [← trimLeftWs]; exact this.symm)
          rw [hch, hc1, hc3]
          exact hws
  have hTR : trimRightWs e = e := by
    rw [he, trimRightWs_idem]
  show trimRightWs (trimRightWs (trimLeftWs (collapseNewlines (collapseSpaces e)))) = e
  rw [hSp, hN, hTL, hTR, hTR]

theorem stripAngleUrlsF_id (f : Nat) {s : List Char} (h : '<' ∉ s) :
    stripAngleUrlsF f s = s := by
  induction f generalizing s with
  | zero => rfl
  | succ f ih =>
    cases s with
    | nil => rfl
    | cons c rest =>
      have hc : ¬ c = '<' := fun hx => h (hx ▸ List.mem_cons_self c rest)
      simp only [stripAngleUrlsF, if_neg hc]
      exact congrArg (c :: ·) (ih (fun hm => h (List.mem_cons_of_mem c hm)))

theorem stripAngleUrls_id {s : List Char} (h : '<' ∉ s) : stripAngleUrls s = s :=
  stripAngleUrlsF_id _ h

theorem stripMdLinksF_id (f : Nat) {s : List Char} (h : '[' ∉ s) :
    stripMdLinksF f s = s := by
  induction f generalizing s with
  | zero => rfl
  | succ f ih =>
    cases s with
    | nil => rfl
    | cons c rest =>
      have hc : ¬ c = '[' := fun hx => h (hx ▸ List.mem_cons_self c rest)
      simp only [stripMdLinksF, if_neg hc]
      exact congrArg (c :: ·) (ih (fun hm => h (List.mem_cons_of_mem c hm)))

theorem stripMdLinks_id {s : List Char} (h : '[' ∉ s) : stripMdLinks s = s :=
  stripMdLinksF_id _ h

theorem stripBoldF_id (f : Nat) {s : List Char} (h : '*' ∉ s) :
    stripBoldF f s = s := by
  induction f generalizing s with
  | zero => rfl
  | succ f ih =>
    cases s with
    | nil => rfl
    | cons c rest =>
      have hc : ¬ c = '*' := fun hx => h (hx ▸ List.mem_cons_self c rest)
      simp only [stripBoldF, if_neg hc]
      exact congrArg (c :: ·) (ih (fun hm => h (List.mem_cons_of_mem c hm)))

theorem stripBold_id {s : List Char} (h : '*' ∉ s) : stripBold s = s :=
  stripBoldF_id _ h

theorem stripItalicF_id (f : Nat) (prev : Option Char) {s : List Char} (h : '*' ∉ s) :
    stripItalicF f prev s = s := by
  induction f generalizing prev s with
  | zero => rfl
  | succ f ih =>
    cases s with
    | nil => rfl
    | cons c rest =>
      have hc : ¬ (c = '*' ∧ prev ≠ some '\n') :=
        fun hx => h (hx.1 ▸ List.mem_cons_self c rest)
      simp only [stripItalicF, if_neg hc]
      exact congrArg (c :: ·) (ih _ (fun hm => h (List.mem_cons_of_mem c hm)))

theorem stripItalic_id {s : List Char} (h : '*' ∉ s) : stripItalic s = s :=
  stripItalicF_id _ _ h

theorem stripCodeF_id (f : Nat) {s : List Char} (h : btick ∉ s) :
    stripCodeF f s = s := by
  induction f generalizing s with
  | zero => rfl
  | succ f ih =>
    cases s with
    | nil => rfl
    | cons c rest =>
      have hc : ¬ c = btick := fun hx => h (hx ▸ List.mem_cons_self c rest)
      simp only [stripCodeF, if_neg hc]
      exact congrArg (c :: ·) (ih (fun hm => h (List.mem_cons_of_mem c hm)))

theorem stripCode_id {s : List Char} (h : btick ∉ s) : stripCode s = s :=
  stripCodeF_id _ h

theorem mem_collapseSpaces {a : Char} {s : List Char} (h : a ∈ collapseSpaces s) :
    a ∈ s := by
  induction s with
  | nil => exact absurd h (by simp [collapseSpaces])
  | cons c r ih =>
    cases r with
    | nil => simpa [collapseSpaces] using h
    | cons d r2 =>
      by_cases hcd : c = ' ' ∧ d = ' '
      · rw [show collapseSpaces (c :: d :: r2) = collapseSpaces (d :: r2) from by
          simp only [collapseSpaces, if_pos hcd]] at h
        exact List.mem_cons_of_mem c (ih h)
      · rw [show collapseSpaces (c :: d :: r2) = c :: collapseSpaces (d :: r2) from by
          simp only [collapseSpaces, if_neg hcd]] at h
        rcases List.mem_cons.1 h with h1 | h2
        · exact h1 ▸ List.mem_cons_self c _
        · exact List.mem_cons_of_mem c (ih h2)

theorem mem_collapseNewlines {a : Char} {s : List Char} (h : a ∈ collapseNewlines s) :
    a ∈ s := by
  induction s with
  | nil => exact absurd h (by simp [collapseNewlines])
  | cons c r ih =>
    cases r with
    | nil => simpa [collapseNewlines] using h
    | cons d r2 =>
      cases r2 with
      | nil => simpa [collapseNewlines] using h
      | cons e r3 =>
        by_cases hcd : c = '\n' ∧ d = '\n' ∧ e = '\n'
        · rw [show collapseNewlines (c :: d :: e :: r3) = collapseNewlines (d :: e :: r3) from by
            simp only [collapseNewlines, if_pos hcd]] at h
          exact List.mem_cons_of_mem c (ih h)
        · rw [show collapseNewlines (c :: d :: e :: r3) = c :: collapseNewlines (d :: e :: r3) from by
            simp only [collapseNewlines, if_neg hcd]] at h
          rcases List.mem_cons.1 h with h1 | h2
          · exact h1 ▸ List.mem_cons_self c _
          · exact List.mem_cons_of_mem c (ih h2)

theorem mem_trimLeftWs {a : Char} {s : List Char} (h : a ∈ trimLeftWs s) : a ∈ s := by
  rw [trimLeftWs_decomp s]
  exact List.mem_append.2 (Or.inr h)

theorem mem_trimRightWs {a : Char} {s : List Char} (h : a ∈ trimRightWs s) : a ∈ s := by
  rcases trimRightWs_decomp s with ⟨t, ht⟩
  rw [ht]
  exact List.mem_append.2 (Or.inl h)

theorem mem_cleanWhitespace {a : Char} {l : List Char} (h : a ∈ cleanWhitespace l) :
    a ∈ l :=
  mem_collapseSpaces (mem_collapseNewlines (mem_trimLeftWs
    (mem_trimRightWs (mem_trimRightWs h))))

/-- **C1, counterexample.**  The Output Sanitizer is *not* idempotent: on the
input `<<https://x>>` one pass of `cleanAiOutput` yields `<https://x>`
(the inner angle-bracket URL is unwrapped, leaving a fresh angle-bracket URL),
and a second pass strips that as well, so
`cleanAiOutput (cleanAiOutput x) ≠ cleanAiOutput x` at this input. -/
theorem cleanAiOutput_not_idempotent :
    cleanAiOutput (cleanAiOutput "<<https://x>>") ≠ cleanAiOutput "<<https://x>>" := by
  decide

/-- **C1, amended.**  The Output Sanitizer `cleanAiOutput` is idempotent on
every string that contains none of the four markdown trigger characters
`<`, `[`, `*` and backtick: on such strings the five marker-stripping passes
are the identity and the whitespace-normalisation passes (space collapsing,
newline collapsing, trimming) form an idempotent composition.  (Full
idempotence fails: see the counterexample.) -/
theorem cleanAiOutput_idem_of_no_markers (s : String)
    (h1 : '<' ∉ s.data) (h2 : '[' ∉ s.data) (h3 : '*' ∉ s.data)
    (h4 : btick ∉ s.data) :
    cleanAiOutput (cleanAiOutput s) = cleanAiOutput s := by
  by_cases hs : s = ""
  · subst hs; rfl
  · have hpipe : cleanPipeline s.data = cleanWhitespace s.data := by
      unfold cleanPipeline
      rw [stripAngleUrls_id h1, stripMdLinks_id h2, stripBold_id h3,
        stripItalic_id h3, stripCode_id h4]
    have hclean : cleanAiOutput s = String.mk (cleanWhitespace s.data) := by
      rw [cleanAiOutput, if_neg hs, hpipe]
    set y := cleanWhitespace s.data with hy
    by_cases hynil : y = []
    · rw [hclean, hynil]
      rfl
    · have hmkne : String.mk y ≠ "" := by
        intro hcontra
        exact hynil (by simpa using congrArg String.data hcontra)
      have hy1 : '<' ∉ y := fun hm => h1 (mem_cleanWhitespace hm)
      have hy2 : '[' ∉ y := fun hm => h2 (mem_cleanWhitespace hm)
      have hy3 : '*' ∉ y := fun hm => h3 (mem_cleanWhitespace hm)
      have hy4 : btick ∉ y := fun hm => h4 (mem_cleanWhitespace hm)
      rw [hclean, cleanAiOutput, if_neg hmkne]
      show String.mk (cleanPipeline y) = String.mk y
      have hpipe2 : cleanPipeline y = cleanWhitespace y := by
        unfold cleanPipeline
        rw [stripAngleUrls_id hy1, stripMdLinks_id hy2, stripBold_id hy3,
          stripItalic_id hy3, stripCode_id hy4]
      rw [hpipe2]
      exact congrArg String.mk (by rw [hy, cleanWhitespace_idem])

/-- **C1, witness** for the amended idempotence theorem at a concrete
marker-free input. -/
theorem cleanAiOutput_idem_no_markers_holds :
    cleanAiOutput (cleanAiOutput "a  b\n\n\n\nc ") = cleanAiOutput "a  b\n\n\n\nc " :=
  cleanAiOutput_idem_of_no_markers _ (by decide) (by decide) (by decide) (by decide)

theorem replaceAllF_fuel_inv {pat val : List Char} :
    ∀ {f g : Nat} {s : List Char}, s.length < f → s.length < g →
    replaceAllF f pat val s = replaceAllF g pat val s := by
  intro f
  induction f with
  | zero => exact fun hf _ => absurd hf (by omega)
  | succ f ih =>
    intro g s hf hg
    cases g with
    | zero => exact absurd hg (by omega)
    | succ g =>
      cases s with
      | nil => rfl
      | cons c rest =>
        by_cases hcond : pat ≠ [] ∧ lpre pat (c :: rest) = true
        · simp only [replaceAllF, if_pos hcond]
          congr 1
          have hp : 1 ≤ pat.length := by
            cases hpat : pat with
            | nil => exact absurd hpat hcond.1
            | cons a as => simp
          apply ih
          · simp only [List.length_drop, List.length_cons] at *
            omega
          · simp only [List.length_drop, List.length_cons] at *
            omega
        · simp only [replaceAllF, if_neg hcond]
          congr 1
          apply ih
          · simp only [List.length_cons] at hf
            omega
          · simp only [List.length_cons] at hg
            omega

theorem replaceAll_nil (pat val : List Char) : replaceAll pat val [] = [] := rfl

theorem replaceAll_cons_pos {pat : List Char} (val : List Char) {c : Char} {rest : List Char}
    (hne : pat ≠ []) (hl : lpre pat (c :: rest) = true) :
    replaceAll pat val (c :: rest)
      = val ++ replaceAll pat val ((c :: rest).drop pat.length) := by
  have hp : 1 ≤ pat.length := by
    cases hpat : pat with
    | nil => exact absurd hpat hne
    | cons a as => simp
  show replaceAllF ((c :: rest).length + 1) pat val (c :: rest) = _
  simp only [replaceAllF, if_pos (And.intro hne hl)]
  congr 1
  apply replaceAllF_fuel_inv
  · simp only [List.length_drop, List.length_cons]
    omega
  · simp only [List.length_drop]
    omega

theorem replaceAll_cons_neg {pat val : List Char} {c : Char} {rest : List Char}
    (h : ¬ (pat ≠ [] ∧ lpre pat (c :: rest) = true)) :
    replaceAll pat val (c :: rest) = c :: replaceAll pat val rest := by
  show replaceAllF ((c :: rest).length + 1) pat val (c :: rest) = _
  simp only [replaceAllF, if_neg h]
  rfl

theorem lpre_head_false {a : Char} {as : List Char} {c : Char} {rest : List Char}
    (h : ¬ a = c) : lpre (a :: as) (c :: rest) = false := by
  simp [lpre, decide_eq_false h]

theorem replaceAll_brace_skip {pat : List Char} (val : List Char) {pre : List Char}
    (s : List Char) (hp : pat.head? = some '{') (hpre : '{' ∉ pre) :
    replaceAll pat val (pre ++ s) = pre ++ replaceAll pat val s := by
  induction pre with
  | nil => simp
  | cons c pre2 ih =>
    have hc : ¬ c = '{' := fun hx => hpre (by rw [hx]; exact List.mem_cons_self _ _)
    obtain ⟨p0, pt, rfl⟩ : ∃ p0 pt, pat = p0 :: pt := by
      cases pat with
      | nil => simp at hp
      | cons p0 pt => exact ⟨p0, pt, rfl⟩
    have hp0 : p0 = '{' := by simpa using hp
    have hlf : lpre (p0 :: pt) (c :: (pre2 ++ s)) = false :=
      lpre_head_false (by rw [hp0]; exact fun hx => hc hx.symm)
    rw [List.cons_append,
      replaceAll_cons_neg (fun hx => absurd hx.2 (by simp [hlf]))]
    rw [ih (fun hm => hpre (List.mem_cons_of_mem c hm)), List.cons_append]

theorem replaceAll_match {pat : List Char} (val rest : List Char) (hne : pat ≠ []) :
    replaceAll pat val (pat ++ rest) = val ++ replaceAll pat val rest := by
  obtain ⟨p0, pt, rfl⟩ := List.exists_cons_of_ne_nil hne
  have hl : lpre (p0 :: pt) (p0 :: (pt ++ rest)) = true := by
    have := lpre_self_append (p0 :: pt) rest
    rwa [List.cons_append] at this
  rw [List.cons_append, replaceAll_cons_pos val hne hl]
  congr 1
  rw [← List.cons_append]
  rw [show ((p0 :: pt) ++ rest).drop (p0 :: pt).length = rest from List.drop_left _ _]

theorem replaceAll_id_of_no_brace {pat val s : List Char}
    (hp : pat.head? = some '{') (hs : '{' ∉ s) : replaceAll pat val s = s := by
  have := @replaceAll_brace_skip pat val s [] hp hs
  rwa [List.append_nil, replaceAll_nil, List.append_nil] at this

theorem replaceAll_id_of_not_hasSub {pat val s : List Char}
    (h : hasSub pat s = false) : replaceAll pat val s = s := by
  induction s with
  | nil => rfl
  | cons c rest ih =>
    rw [hasSub_cons, Bool.or_eq_false_iff] at h
    rw [replaceAll_cons_neg (fun hx => absurd hx.2 (by simp [h.1]))]
    rw [ih h.2]

theorem lpre_append_cases {p t rest : List Char} (h : lpre p (t ++ rest) = true) :
    lpre p t = true ∨ lpre t p = true := by
  induction t generalizing p with
  | nil => exact Or.inr rfl
  | cons b bs ih =>
    cases p with
    | nil => exact Or.inl rfl
    | cons a as =>
      rw [List.cons_append] at h
      simp only [lpre, Bool.and_eq_true, decide_eq_true_eq] at h ⊢
      rcases ih h.2 with h1 | h1
      · exact Or.inl ⟨h.1, h1⟩
      · exact Or.inr ⟨h.1.symm, h1⟩

theorem allTokens_shape :
    ∀ t ∈ allTokens, t ≠ [] ∧ t.head? = some '{' ∧ '{' ∉ t.drop 1 := by decide

theorem allTokens_mutual :
    ∀ p ∈ allTokens, ∀ q ∈ allTokens, p ≠ q → lpre p q = false := by decide

theorem replaceAll_pass_other {p tok : List Char} (val : List Char) {pre post : List Char}
    (hp : p ∈ allTokens) (htok : tok ∈ allTokens) (hne : p ≠ tok)
    (hpre : '{' ∉ pre) (hpost : '{' ∉ post) :
    replaceAll p val (pre ++ (tok ++ post)) = pre ++ (tok ++ post) := by
  obtain ⟨hpne, hphead, hptail⟩ := allTokens_shape p hp
  obtain ⟨htne, hthead, httail⟩ := allTokens_shape tok htok
  rw [replaceAll_brace_skip val (tok ++ post) hphead hpre]
  congr 1
  obtain ⟨t0, tt, rfl⟩ := List.exists_cons_of_ne_nil htne
  have ht0 : t0 = '{' := by simpa using hthead
  have hlf : lpre p ((t0 :: tt) ++ post) = false := by
    cases hv : lpre p ((t0 :: tt) ++ post) with
    | false => rfl
    | true =>
      rcases lpre_append_cases hv with h1 | h1
      · rw [allTokens_mutual p hp (t0 :: tt) htok hne] at h1
        exact absurd h1 (by simp)
      · rw [allTokens_mutual (t0 :: tt) htok p hp (fun hx => hne hx.symm)] at h1
        exact absurd h1 (by simp)
  rw [List.cons_append] at hlf
  rw [List.cons_append,
    replaceAll_cons_neg (fun hx => absurd hx.2 (by simp [hlf]))]
  congr 1
  apply replaceAll_id_of_no_brace hphead
  intro hmem
  rcases List.mem_append.1 hmem with hm | hm
  · exact absurd hm (by simpa using httail)
  · exact hpost hm

theorem replaceAll_pass_self {tok : List Char} (val : List Char) {pre post : List Char}
    (htok : tok ∈ allTokens) (hpre : '{' ∉ pre) (hpost : '{' ∉ post) :
    replaceAll tok val (pre ++ (tok ++ post)) = pre ++ (val ++ post) := by
  obtain ⟨htne, hthead, _⟩ := allTokens_shape tok htok
  rw [replaceAll_brace_skip val (tok ++ post) hthead hpre]
  rw [replaceAll_match val post htne, replaceAll_id_of_no_brace hthead hpost]

theorem replacePlaceholdersL_id_of_no_brace {repls : List (List Char × List Char)}
    (hall : ∀ pv ∈ repls, pv.1 ∈ allTokens) {s : List Char} (hs : '{' ∉ s) :
    replacePlaceholdersL repls s = s := by
  induction repls with
  | nil => rfl
  | cons pv rest ih =>
    have hhead := (allTokens_shape pv.1 (hall pv (List.mem_cons_self _ _))).2.1
    show List.foldl _ _ (pv :: rest) = s
    rw [List.foldl_cons]
    rw [show replaceAll pv.1 pv.2 s = s from replaceAll_id_of_no_brace hhead hs]
    exact ih (fun q hq => hall q (List.mem_cons_of_mem _ hq))

theorem replacePlaceholdersL_id_of_not_hasSub {repls : List (List Char × List Char)}
    {s : List Char} (hall : ∀ pv ∈ repls, hasSub pv.1 s = false) :
    replacePlaceholdersL repls s = s := by
  induction repls with
  | nil => rfl
  | cons pv rest ih =>
    show List.foldl _ _ (pv :: rest) = s
    rw [List.foldl_cons]
    rw [show replaceAll pv.1 pv.2 s = s from
      replaceAll_id_of_not_hasSub (hall pv (List.mem_cons_self _ _))]
    exact ih (fun q hq => hall q (List.mem_cons_of_mem _ hq))

theorem replacePlaceholdersL_subst {repls : List (List Char × List Char)}
    {tok v pre post : List Char}
    (hfst : ∀ pv ∈ repls, pv.1 ∈ allTokens)
    (hnodup : (repls.map Prod.fst).Nodup)
    (hmem : (tok, v) ∈ repls)
    (hvals : ∀ pv ∈ repls, '{' ∉ pv.2)
    (hpre : '{' ∉ pre) (hpost : '{' ∉ post) :
    replacePlaceholdersL repls (pre ++ (tok ++ post)) = pre ++ (v ++ post) := by
  induction repls with
  | nil => cases hmem
  | cons pv rest ih =>
    have hpv1 : pv.1 ∈ allTokens := hfst pv (List.mem_cons_self _ _)
    have htok : tok ∈ allTokens := by
      have := hfst (tok, v) hmem
      simpa using this
    rcases List.mem_cons.1 hmem with heq | hmem2
    · subst heq
      show List.foldl _ _ ((tok, v) :: rest) = _
      rw [List.foldl_cons]
      rw [show replaceAll tok v (pre ++ (tok ++ post)) = pre ++ (v ++ post) from
        replaceAll_pass_self v htok hpre hpost]
      apply replacePlaceholdersL_id_of_no_brace
        (fun q hq => hfst q (List.mem_cons_of_mem _ hq))
      intro hm
      rcases List.mem_append.1 hm with hm1 | hm1
      · exact hpre hm1
      · rcases List.mem_append.1 hm1 with hm2 | hm2
        · exact hvals (tok, v) (List.mem_cons_self _ _) hm2
        · exact hpost hm2
    · have hpvne : pv.1 ≠ tok := by
        intro hx
        have htokmem : tok ∈ rest.map Prod.fst :=
          List.mem_map.2 ⟨(tok, v), hmem2, rfl⟩
        rw [List.map_cons] at hnodup
        exact (List.nodup_cons.1 hnodup).1 (hx ▸ htokmem)
      show List.foldl _ _ (pv :: rest) = _
      rw [List.foldl_cons]
      rw [show replaceAll pv.1 pv.2 (pre ++ (tok ++ post)) = pre ++ (tok ++ post) from
        replaceAll_pass_other pv.2 hpv1 htok hpvne hpre hpost]
      exact ih (fun q hq => hfst q (List.mem_cons_of_mem _ hq))
        (by rw [List.map_cons] at hnodup; exact (List.nodup_cons.1 hnodup).2)
        hmem2
        (fun q hq => hvals q (List.mem_cons_of_mem _ hq))

theorem strData_append (a b : String) : (a ++ b).data = a.data ++ b.data := rfl

theorem strMk_data (t : String) : String.mk t.data = t := rfl

theorem replacementsOf_fst (e : EmailData) :
    (replacementsOf e).map Prod.fst = allTokens := rfl

theorem replacementsOf_tokens (e : EmailData) :
    ∀ pv ∈ replacementsOf e, pv.1 ∈ allTokens := by
  intro pv hpv
  have h1 : pv.1 ∈ (replacementsOf e).map Prod.fst := List.mem_map_of_mem _ hpv
  rwa [replacementsOf_fst] at h1

theorem replacementsOf_nodup (e : EmailData) :
    ((replacementsOf e).map Prod.fst).Nodup := by
  rw [replacementsOf_fst]
  decide

/-- **C8, counterexample.**  Placeholder substitution does *not* always insert
the literal message-derived value: with template `{email_body}`, body
`{subject}` and subject `S`, the sequential passes of `replacePlaceholders`
rewrite the token `{subject}` *inside the freshly inserted body*, so the
result is `S` rather than the literal body value `{subject}`. -/
theorem replacePlaceholders_not_literal :
    replacePlaceholders "{email_body}"
        (some { body := "{subject}", subject := "S" }) = "S" ∧
      replacePlaceholders "{email_body}"
        (some { body := "{subject}", subject := "S" }) ≠ "{subject}" := by
  constructor
  · decide
  · decide

/-- **C8, amended.**  `replacePlaceholders` replaces each of the eight
placeholder tokens occurring in the template with the (literal)
message-derived value — empty string for absent fields by the model of
`EmailData` — provided neither the surrounding template text nor any of the
message-derived values contains a `{` (values containing tokens are rewritten
by later passes, see the counterexample and C10); and any template in which
no listed token occurs (e.g. one with only unknown `{token}` text) is
returned verbatim, without error. -/
theorem replacePlaceholders_token_subst (e : EmailData) (tok v : List Char)
    (pre post : String)
    (hmem : (tok, v) ∈ replacementsOf e)
    (hvals : ∀ pv ∈ replacementsOf e, '{' ∉ pv.2)
    (hpre : '{' ∉ pre.data) (hpost : '{' ∉ post.data) :
    replacePlaceholders (pre ++ String.mk tok ++ post) (some e)
        = pre ++ String.mk v ++ post
      ∧ ∀ t : String, (∀ tk ∈ allTokens, hasSub tk t.data = false) →
          replacePlaceholders t (some e) = t := by
  constructor
  · show String.mk (replacePlaceholdersL (replacementsOf e)
      ((pre ++ String.mk tok ++ post)).data) = _
    have hdata : ((pre ++ String.mk tok ++ post)).data
        = pre.data ++ (tok ++ post.data) := by
      rw [strData_append, strData_append, List.append_assoc]
    rw [hdata]
    rw [replacePlaceholdersL_subst (replacementsOf_tokens e)
      (replacementsOf_nodup e) hmem hvals hpre hpost]
    show String.mk (pre.data ++ (v ++ post.data))
      = (pre ++ String.mk v) ++ post
    have : ((pre ++ String.mk v) ++ post).data = (pre.data ++ v) ++ post.data := by
      rw [strData_append, strData_append]
    rw [← strMk_data ((pre ++ String.mk v) ++ post), this, List.append_assoc]
  · intro t ht
    show String.mk (replacePlaceholdersL (replacementsOf e) t.data) = t
    rw [replacePlaceholdersL_id_of_not_hasSub
      (fun pv hpv => ht pv.1 (replacementsOf_tokens e pv hpv))]

/-- **C8, witness** for the amended substitution theorem at a concrete
template, token and message. -/
theorem replacePlaceholders_token_subst_holds :
    replacePlaceholders ("Re: " ++ String.mk tokSubject ++ "!")
        (some { subject := "Hello" }) = "Re: " ++ String.mk ("Hello" : String).data ++ "!"
      ∧ replacePlaceholders "plain {foo} text" (some { subject := "Hello" })
          = "plain {foo} text" := by
  have h := replacePlaceholders_token_subst { subject := "Hello" }
    tokSubject ("Hello" : String).data "Re: " "!"
    (by decide) (by decide) (by decide) (by decide)
  exact ⟨h.1, h.2 "plain {foo} text" (by decide)⟩

/-- **C10.**  Placeholder substitution is sequential, not simultaneous: when
the template contains `{email_body}` and the message body itself contains the
later-processed token `{subject}`, the `{subject}` occurrence inside the
inserted body is rewritten to the message's subject value by the later pass
(rather than being left verbatim), because `replacePlaceholders` rewrites the
whole accumulated string once per token in a fixed order beginning with
`{email_body}`. -/
theorem replacePlaceholders_sequential_cascade
    (e : EmailData) (pre post b1 b2 : String)
    (hbody : e.body = b1 ++ "{subject}" ++ b2)
    (hpre : '{' ∉ pre.data) (hpost : '{' ∉ post.data)
    (hb1 : '{' ∉ b1.data) (hb2 : '{' ∉ b2.data)
    (hsubj : '{' ∉ e.subject.data) :
    replacePlaceholders (pre ++ "{email_body}" ++ post) (some e)
      = pre ++ b1 ++ e.subject ++ b2 ++ post := by
  have hbodyData : e.body.data = b1.data ++ (tokSubject ++ b2.data) := by
    have := congrArg String.data hbody
    rw [strData_append, strData_append] at this
    rw [this, List.append_assoc]
    rfl
  have hEB : tokEmailBody ∈ allTokens := by decide
  have hSub : tokSubject ∈ allTokens := by decide
  show String.mk (replacePlaceholdersL (replacementsOf e)
      ((pre ++ "{email_body}" ++ post)).data) = _
  have hdata : ((pre ++ "{email_body}" ++ post)).data
      = pre.data ++ (tokEmailBody ++ post.data) := by
    rw [strData_append, strData_append, List.append_assoc]
    rfl
  rw [hdata]
  show String.mk (replacePlaceholdersL
    ((tokEmailBody, e.body.data) :: (tokSubject, e.subject.data) ::
      [(tokSender, (senderValue e).data),
       (tokSenderEmail, e.senderEmail.data),
       (tokSenderName, e.senderName.data),
       (tokTo, e.toField.data),
       (tokCc, e.cc.data),
       (tokDate, e.receivedTime.data)])
    (pre.data ++ (tokEmailBody ++ post.data))) = _
  rw [show replacePlaceholdersL
      ((tokEmailBody, e.body.data) :: (tokSubject, e.subject.data) ::
        [(tokSender, (senderValue e).data),
         (tokSenderEmail, e.senderEmail.data),
         (tokSenderName, e.senderName.data),
         (tokTo, e.toField.data),
         (tokCc, e.cc.data),
         (tokDate, e.receivedTime.data)])
      (pre.data ++ (tokEmailBody ++ post.data))
    = replacePlaceholdersL
      ((tokSubject, e.subject.data) ::
        [(tokSender, (senderValue e).data),
         (tokSenderEmail, e.senderEmail.data),
         (tokSenderName, e.senderName.data),
         (tokTo, e.toField.data),
         (tokCc, e.cc.data),
         (tokDate, e.receivedTime.data)])
      (replaceAll tokEmailBody e.body.data (pre.data ++ (tokEmailBody ++ post.data)))
    from rfl]
  rw [replaceAll_pass_self e.body.data hEB hpre hpost]
  rw [hbodyData]
  have hshape : pre.data ++ ((b1.data ++ (tokSubject ++ b2.data)) ++ post.data)
      = (pre.data ++ b1.data) ++ (tokSubject ++ (b2.data ++ post.data)) := by
    simp [List.append_assoc]
  rw [hshape]
  rw [show replacePlaceholdersL
      ((tokSubject, e.subject.data) ::
        [(tokSender, (senderValue e).data),
         (tokSenderEmail, e.senderEmail.data),
         (tokSenderName, e.senderName.data),
         (tokTo, e.toField.data),
         (tokCc, e.cc.data),
         (tokDate, e.receivedTime.data)])
      ((pre.data ++ b1.data) ++ (tokSubject ++ (b2.data ++ post.data)))
    = replacePlaceholdersL
      [(tokSender, (senderValue e).data),
       (tokSenderEmail, e.senderEmail.data),
       (tokSenderName, e.senderName.data),
       (tokTo, e.toField.data),
       (tokCc, e.cc.data),
       (tokDate, e.receivedTime.data)]
      (replaceAll tokSubject e.subject.data
        ((pre.data ++ b1.data) ++ (tokSubject ++ (b2.data ++ post.data))))
    from rfl]
  rw [replaceAll_pass_self e.subject.data hSub
    (fun hm => by rcases List.mem_append.1 hm with hm1 | hm1
                  exacts [hpre hm1, hb1 hm1])
    (fun hm => by rcases List.mem_append.1 hm with hm1 | hm1
                  exacts [hb2 hm1, hpost hm1])]
  rw [replacePlaceholdersL_id_of_no_brace
    (by intro pv hpv
        have h1 : pv.1 ∈ ([(tokSender, (senderValue e).data),
          (tokSenderEmail, e.senderEmail.data),
          (tokSenderName, e.senderName.data),
          (tokTo, e.toField.data),
          (tokCc, e.cc.data),
          (tokDate, e.receivedTime.data)]).map Prod.fst := List.mem_map_of_mem _ hpv
        simp only [List.map_cons, List.map_nil, List.mem_cons,
          List.not_mem_nil, or_false] at h1
        rcases h1 with h | h | h | h | h | h
        all_goals (rw [h]; decide))
    (by intro hm
        rcases List.mem_append.1 hm with hm1 | hm1
        · rcases List.mem_append.1 hm1 with hm2 | hm2
          exacts [hpre hm2, hb1 hm2]
        · rcases List.mem_append.1 hm1 with hm2 | hm2
          · exact hsubj hm2
          · rcases List.mem_append.1 hm2 with hm3 | hm3
            exacts [hb2 hm3, hpost hm3])]
  show String.mk ((pre.data ++ b1.data) ++ (e.subject.data ++ (b2.data ++ post.data)))
    = (((pre ++ b1) ++ e.subject) ++ b2) ++ post
  rw [← strMk_data ((((pre ++ b1) ++ e.subject) ++ b2) ++ post)]
  have : ((((pre ++ b1) ++ e.subject) ++ b2) ++ post).data
      = (((pre.data ++ b1.data) ++ e.subject.data) ++ b2.data) ++ post.data := by
    simp [strData_append]
  rw [this]
  congr 1
  simp [List.append_assoc]

/-- **C10, witness** at a concrete template and message: the `{subject}`
inside the inserted body is rewritten by the later pass. -/
theorem replacePlaceholders_sequential_cascade_holds :
    replacePlaceholders ("A " ++ "{email_body}" ++ " B")
      (some { body := "x{subject}y", subject := "S" })
      = "A " ++ "x" ++ "S" ++ "y" ++ " B" := by
  have h := replacePlaceholders_sequential_cascade
    { body := "x{subject}y", subject := "S" } "A " " B" "x" "y"
    (by decide) (by decide) (by decide) (by decide) (by decide) (by decide)
  simpa using h

/-- **C5, counterexample.**  The AI Invoker's response validation does *not*
reject every response whose content field is missing or null: for both
providers, a reply whose envelope is intact down to the message object but
whose `content` field is null is accepted as a success with `content = none`. -/
theorem aiInvoker_accepts_null_content :
    (processWithGrokAPI (.ok (some ⟨some [⟨some ⟨none⟩⟩]⟩))).success = true
      ∧ (processWithGrokAPI (.ok (some ⟨some [⟨some ⟨none⟩⟩]⟩))).content = none
      ∧ (processWithOllama (.ok (some ⟨some ⟨none⟩⟩))).success = true
      ∧ (processWithOllama (.ok (some ⟨some ⟨none⟩⟩))).content = none :=
  ⟨rfl, rfl, rfl, rfl⟩

/-- **C5, amended.**  Response validation checks the envelope only down to the
first choice's message object (Grok/OpenAI-compatible) resp. the message
object (Ollama): a response is accepted iff that object is present, and the
accepted content is whatever the message's `content` field holds — possibly
null.  A missing `data`/`choices`/first-choice (Grok) or missing
`data`/`message` (Ollama) yields the generic "invalid response" failure; a
first choice without a `message` object yields a caught property-access
failure, not the generic reason.  Thrown network errors are failures carrying
the thrown message. -/
theorem aiInvoker_response_validation (o : Except String (Option GrokData))
    (o2 : Except String (Option OllamaData)) :
    ((processWithGrokAPI o).success = true ↔
        ∃ d rest m, o = .ok (some d) ∧ d.choices = some ({ message := some m } :: rest))
      ∧ (∀ d rest m, o = .ok (some d) →
          d.choices = some ({ message := some m } :: rest) →
          processWithGrokAPI o = { success := true, content := m.content })
      ∧ (∀ d, o = .ok (some d) → d.choices = none ∨ d.choices = some [] →
          processWithGrokAPI o
            = { success := false, error := some "Invalid response from API" })
      ∧ (o = .ok none →
          processWithGrokAPI o
            = { success := false, error := some "Invalid response from API" })
      ∧ (∀ d rest, o = .ok (some d) → d.choices = some ({ message := none } :: rest) →
          (processWithGrokAPI o).success = false
            ∧ (processWithGrokAPI o).error ≠ some "Invalid response from API")
      ∧ (∀ msg, o = .error msg →
          processWithGrokAPI o = { success := false, error := some msg })
      ∧ ((processWithOllama o2).success = true ↔
          ∃ d m, o2 = .ok (some d) ∧ d.message = some m)
      ∧ (∀ d m, o2 = .ok (some d) → d.message = some m →
          processWithOllama o2 = { success := true, content := m.content })
      ∧ (∀ d, o2 = .ok (some d) → d.message = none →
          processWithOllama o2
            = { success := false, error := some "Invalid response from Ollama" })
      ∧ (o2 = .ok none →
          processWithOllama o2
            = { success := false, error := some "Invalid response from Ollama" }) := by
  refine ⟨?_, ?_, ?_, ?_, ?_, ?_, ?_, ?_, ?_, ?_⟩
  · constructor
    · intro hs
      match o with
      | .error e => simp [processWithGrokAPI] at hs
      | .ok none => simp [processWithGrokAPI] at hs
      | .ok (some d) =>
        match hc : d.choices with
        | none => simp [processWithGrokAPI, hc] at hs
        | some [] => simp [processWithGrokAPI, hc] at hs
        | some (c :: rest) =>
          match hm : c.message with
          | none => simp [processWithGrokAPI, hc, hm] at hs
          | some m =>
            refine ⟨d, rest, m, rfl, ?_⟩
            rw [hc]
            congr 1
            cases c
            simpa using hm
    · rintro ⟨d, rest, m, rfl, hch⟩
      simp [processWithGrokAPI, hch]
  · rintro d rest m rfl hch
    simp [processWithGrokAPI, hch]
  · rintro d rfl hch
    rcases hch with hch | hch <;> simp [processWithGrokAPI, hch]
  · rintro rfl
    rfl
  · rintro d rest rfl hch
    simp [processWithGrokAPI, hch]
  · rintro msg rfl
    rfl
  · constructor
    · intro hs
      match o2 with
      | .error e => simp [processWithOllama] at hs
      | .ok none => simp [processWithOllama] at hs
      | .ok (some d) =>
        match hm : d.message with
        | none => simp [processWithOllama, hm] at hs
        | some m => exact ⟨d, m, rfl, hm⟩
    · rintro ⟨d, m, rfl, hm⟩
      simp [processWithOllama, hm]
  · rintro d m rfl hm
    simp [processWithOllama, hm]
  · rintro d rfl hm
    simp [processWithOllama, hm]
  · rintro rfl
    rfl

/-- **C5, witness** for the response-validation characterisation at concrete
response shapes. -/
theorem aiInvoker_response_validation_holds :
    processWithGrokAPI (.ok (some ⟨some [⟨some ⟨some "hi"⟩⟩]⟩))
        = { success := true, content := some "hi" }
      ∧ processWithGrokAPI (.ok (some ⟨none⟩))
        = { success := false, error := some "Invalid response from API" }
      ∧ processWithOllama (.ok (some ⟨some ⟨some "ok"⟩⟩))
        = { success := true, content := some "ok" } := by
  have h := aiInvoker_response_validation
    (.ok (some ⟨some [⟨some ⟨some "hi"⟩⟩]⟩)) (.ok (some ⟨some ⟨some "ok"⟩⟩))
  refine ⟨h.2.1 _ [] ⟨some "hi"⟩ rfl rfl, ?_, h.2.2.2.2.2.2.2.1 _ ⟨some "ok"⟩ rfl rfl⟩
  have h2 := aiInvoker_response_validation
    (.ok (some ⟨none⟩)) (.ok (some ⟨some ⟨some "ok"⟩⟩))
  exact h2.2.2.1 _ rfl (Or.inl rfl)

theorem strLength_mk (l : List Char) : (String.mk l).length = l.length := rfl

theorem strLength_append (a b : String) : (a ++ b).length = a.length + b.length := by
  show (a ++ b).data.length = a.data.length + b.data.length
  rw [strData_append, List.length_append]

/-- **C6.**  Both content caps truncate exactly at the ceiling and append
their exact marker: for text longer than the ceiling the output is the
ceiling-length prefix plus the marker (`"\n... [truncated]"` in the
attachment-summary path — which contains the literal `[truncated]` — and
`"\n\n[Document truncated due to length...]"` in the standalone file-analysis
path), so its length is exactly ceiling + marker length, never more; text
at or below the ceiling is passed through unchanged. -/
theorem truncation_caps (s : String) :
    (s.length > 5000 →
        capAttachmentContent s = String.mk (s.data.take 5000) ++ "\n... [truncated]"
          ∧ (capAttachmentContent s).length = 5000 + ("\n... [truncated]" : String).length
          ∧ hasSub ("[truncated]" : String).data (capAttachmentContent s).data = true)
      ∧ (s.length ≤ 5000 → capAttachmentContent s = s)
      ∧ (s.length > 50000 →
          capAnalysisText s
              = String.mk (s.data.take 50000) ++ "\n\n[Document truncated due to length...]"
            ∧ (capAnalysisText s).length
              = 50000 + ("\n\n[Document truncated due to length...]" : String).length)
      ∧ (s.length ≤ 50000 → capAnalysisText s = s) := by
  refine ⟨fun h => ⟨?_, ?_, ?_⟩, fun h => ?_, fun h => ⟨?_, ?_⟩, fun h => ?_⟩
  · rw [capAttachmentContent, if_pos h]
  · rw [capAttachmentContent, if_pos h, strLength_append, strLength_mk,
      List.length_take]
    have hlen : s.data.length > 5000 := h
    omega
  · rw [capAttachmentContent, if_pos h, strData_append]
    exact hasSub_append_left _ (by decide)
  · rw [capAttachmentContent, if_neg (by omega)]
  · rw [capAnalysisText, if_pos h]
  · rw [capAnalysisText, if_pos h, strLength_append, strLength_mk,
      List.length_take]
    have hlen : s.data.length > 50000 := h
    omega
  · rw [capAnalysisText, if_neg (by omega)]

/-- **C6, witness**: the caps evaluated at concrete over-limit and
under-limit inputs. -/
theorem truncation_caps_holds :
    (capAttachmentContent (String.mk (List.replicate 5001 'a'))).length
        = 5000 + ("\n... [truncated]" : String).length
      ∧ capAttachmentContent "short" = "short"
      ∧ (capAnalysisText (String.mk (List.replicate 50001 'b'))).length
        = 50000 + ("\n\n[Document truncated due to length...]" : String).length
      ∧ capAnalysisText "short" = "short" := by
  refine ⟨((truncation_caps _).1 ?_).2.1, (truncation_caps "short").2.1 ?_,
    ((truncation_caps _).2.2.1 ?_).2, (truncation_caps "short").2.2.2 ?_⟩
  · show (String.mk (List.replicate 5001 'a')).length > 5000
    rw [strLength_mk, List.length_replicate]
    omega
  · decide
  · show (String.mk (List.replicate 50001 'b')).length > 50000
    rw [strLength_mk, List.length_replicate]
    omega
  · decide

theorem rlRun_append (state : List Int) (l1 l2 : List Int) :
    rlRun state (l1 ++ l2)
      = ((rlRun state l1).1 ++ (rlRun (rlRun state l1).2 l2).1,
         (rlRun (rlRun state l1).2 l2).2) := by
  induction l1 generalizing state with
  | nil => rfl
  | cons t ts ih =>
    show ((rlCheck state t).1 :: (rlRun (rlCheck state t).2 (ts ++ l2)).1,
      (rlRun (rlCheck state t).2 (ts ++ l2)).2) = _
    rw [ih]
    rfl

theorem rlRun_in_window (done rest : List Int) (t21 : Int)
    (hwinD : ∀ t ∈ done, t21 - rlWindowMs < t ∧ t ≤ t21)
    (hwinR : ∀ t ∈ rest, t21 - rlWindowMs < t ∧ t ≤ t21)
    (hlen : done.length + rest.length ≤ rlMaxCalls) :
    rlRun done rest = (List.replicate rest.length true, done ++ rest) := by
  induction rest generalizing done with
  | nil => simp [rlRun]
  | cons t rts ih =>
    have hT := hwinR t (List.mem_cons_self _ _)
    have hfil : done.filter (fun x => decide (x > t - rlWindowMs)) = done := by
      rw [List.filter_eq_self]
      intro x hx
      have hX := hwinD x hx
      simp only [decide_eq_true_eq]
      omega
    have hlt : ¬ (done.filter (fun x => decide (x > t - rlWindowMs))).length ≥ rlMaxCalls := by
      rw [hfil]
      simp only [List.length_cons] at hlen
      omega
    have hlt2 : ¬ done.length ≥ rlMaxCalls := by
      simp only [List.length_cons, rlMaxCalls] at hlen ⊢
      omega
    have hcheck : rlCheck done t = (true, done ++ [t]) := by
      rw [rlCheck]
      simp only [hfil]
      rw [if_neg hlt2]
    have hstep := ih (done ++ [t])
      (by intro x hx
          rcases List.mem_append.1 hx with hx1 | hx1
          · exact hwinD x hx1
          · rw [List.mem_singleton.1 hx1]; exact hT)
      (fun x hx => hwinR x (List.mem_cons_of_mem _ hx))
      (by simp only [List.length_append, List.length_cons, List.length_nil] at hlen ⊢
          omega)
    show ((rlCheck done t).1 :: (rlRun (rlCheck done t).2 rts).1,
      (rlRun (rlCheck done t).2 rts).2) = _
    rw [hcheck, hstep]
    simp [List.replicate_succ, List.append_assoc]

/-- **C7.**  The fixed-window rate limiter enforces its 20-calls-per-60s
budget per key: after 20 accepted calls whose timestamps all lie inside the
window of a 21st call, that 21st call is rejected — and at the
`process-with-ai` entry point the rejection yields the "Too many AI requests"
failure with no downstream AI work started — while a 21st call made once the
window has elapsed (all stored timestamps at least 60 s old) is accepted. -/
theorem rateLimiter_window (ts : List Int) (t21 : Int)
    (hlen : ts.length = 20)
    (hwin : ∀ t ∈ ts, t21 - 60000 < t ∧ t ≤ t21) :
    (rlRun [] (ts ++ [t21])).1 = List.replicate 20 true ++ [false]
      ∧ (∀ t2 : Int, (∀ t ∈ ts, t ≤ t2 - 60000) →
          (rlRun [] (ts ++ [t2])).1 = List.replicate 20 true ++ [true])
      ∧ (∀ prompt ai,
          processWithAiHandler (rlRun [] ts).2 t21 prompt ai
            = ({ success := false,
                 error := some "Too many AI requests. Please wait a moment and try again." },
               false, ts)) := by
  have hbase : rlRun [] ts = (List.replicate 20 true, ts) := by
    have := rlRun_in_window [] ts t21 (by intro x hx; cases hx) hwin
      (by rw [hlen]; rfl)
    simpa [hlen] using this
  have hfull : ts.filter (fun x => decide (x > t21 - rlWindowMs)) = ts := by
    rw [List.filter_eq_self]
    intro x hx
    have hX := hwin x hx
    simp only [decide_eq_true_eq]
    have : (rlWindowMs : Int) = 60000 := rfl
    omega
  have hreject : rlCheck ts t21 = (false, ts) := by
    rw [rlCheck]
    simp only [hfull]
    rw [if_pos (by rw [hlen]; exact le_refl _)]
  refine ⟨?_, ?_, ?_⟩
  · rw [rlRun_append, hbase]
    show List.replicate 20 true ++ ((rlCheck ts t21).1 :: (rlRun (rlCheck ts t21).2 []).1) = _
    rw [hreject]
    rfl
  · intro t2 hold
    have hempty : ts.filter (fun x => decide (x > t2 - rlWindowMs)) = [] := by
      rw [List.filter_eq_nil_iff]
      intro x hx
      have hX := hold x hx
      simp only [decide_eq_true_eq]
      have : (rlWindowMs : Int) = 60000 := rfl
      omega
    have haccept : rlCheck ts t2 = (true, [t2]) := by
      rw [rlCheck]
      simp only [hempty]
      rw [if_neg (by simp [rlMaxCalls])]
      rfl
    rw [rlRun_append, hbase]
    show List.replicate 20 true ++ ((rlCheck ts t2).1 :: (rlRun (rlCheck ts t2).2 []).1) = _
    rw [haccept]
    rfl
  · intro prompt ai
    rw [hbase]
    show processWithAiHandler ts t21 prompt ai = _
    rw [processWithAiHandler, hreject]
    rfl

/-- **C7, witness**: twenty accepted calls at time 0 for one key, a rejected
21st call at time 1, and an accepted 21st call at time 60000 (window
elapsed). -/
theorem rateLimiter_window_holds :
    (rlRun [] (List.replicate 20 (0 : Int) ++ [1])).1
        = List.replicate 20 true ++ [false]
      ∧ (rlRun [] (List.replicate 20 (0 : Int) ++ [60000])).1
        = List.replicate 20 true ++ [true]
      ∧ processWithAiHandler (rlRun [] (List.replicate 20 (0 : Int))).2 1 "p"
          { success := true }
        = ({ success := false,
             error := some "Too many AI requests. Please wait a moment and try again." },
           false, List.replicate 20 (0 : Int)) := by
  have hmem : ∀ t ∈ List.replicate 20 (0 : Int), (1 : Int) - 60000 < t ∧ t ≤ 1 := by
    intro t ht
    have ht0 : t = 0 := List.eq_of_mem_replicate ht
    omega
  have hmem2 : ∀ t ∈ List.replicate 20 (0 : Int), t ≤ (60000 : Int) - 60000 := by
    intro t ht
    have ht0 : t = 0 := List.eq_of_mem_replicate ht
    omega
  have h := rateLimiter_window (List.replicate 20 (0 : Int)) 1 (by decide) hmem
  exact ⟨h.1, h.2.1 60000 hmem2, h.2.2 "p" { success := true }⟩

theorem strLength_pos_of_ne_empty {s : String} (h : s ≠ "") : 0 < s.length := by
  cases s with
  | mk l =>
    cases l with
    | nil => exact absurd rfl h
    | cons c cs => simp [strLength_mk]

/-- **C4, counterexample.**  `extractTextFromFile` does *not* return
`success = false` for an empty file: reading an empty `.txt` file succeeds
with empty text (only unsupported extensions and *thrown* parser/read errors
fail). -/
theorem extract_empty_file_succeeds :
    (extractTextFromFile "empty.txt" {} { readText := .ok "" }).success = true
      ∧ (extractTextFromFile "empty.txt" {} { readText := .ok "" }).text = some ""
      ∧ (extractTextFromFile "empty.txt" {} { readText := .ok "" }).error = none := by
  refine ⟨?_, ?_, ?_⟩ <;> decide

/-- **C4, amended.**  `extract` never raises — it is a total function of the
path and the parser/filesystem oracles, and every failing result carries a
human-readable reason: `success = false` implies the `error` field is set; an
unsupported extension yields exactly the `"Unsupported file type: <ext>"`
reason; corrupt input (a read or parse that throws, shown here for the text
and PDF paths) yields `success = false` with the thrown message.  An empty
file, however, is not a failure (see the counterexample). -/
theorem extract_total_and_failure_reasons (filePath : String) (av : LibAvail)
    (o : FileOracle) :
    ((extractTextFromFile filePath av o).success = false →
        (extractTextFromFile filePath av o).error.isSome = true)
      ∧ (extnameLower filePath ∉ SUPPORTED_TEXT_EXTENSIONS →
         extnameLower filePath ∉ [".pdf", ".docx", ".doc", ".csv"] →
         extnameLower filePath ∉ SUPPORTED_IMAGE_EXTENSIONS →
          extractTextFromFile filePath av o
            = { success := false,
                error := some ("Unsupported file type: " ++ extnameLower filePath),
                fileName := basename filePath })
      ∧ (∀ m, extnameLower filePath ∈ SUPPORTED_TEXT_EXTENSIONS →
          o.readText = .error m →
          extractTextFromFile filePath av o
            = { success := false, error := some m, fileName := basename filePath })
      ∧ (∀ m, extnameLower filePath = ".pdf" → av.pdfParse = true →
          o.readBuffer = .ok () → o.pdf = .error m →
          extractTextFromFile filePath av o
            = { success := false, error := some m, fileName := basename filePath }) := by
  refine ⟨?_, ?_, ?_, ?_⟩
  · simp only [extractTextFromFile]
    by_cases c1 : extnameLower filePath ∈ SUPPORTED_TEXT_EXTENSIONS
    · rw [if_pos c1]
      cases o.readText <;> simp
    · rw [if_neg c1]
      by_cases c2 : extnameLower filePath = ".pdf"
      · rw [if_pos c2]
        by_cases c3 : av.pdfParse = true
        · rw [if_neg (by simp [c3])]
          cases o.readBuffer with
          | error m => simp
          | ok u =>
            cases o.pdf with
            | error m => simp
            | ok data =>
              by_cases csc : pdfScannedCheck data = true
              · simp [csc]
              · simp [csc]
        · rw [if_pos (by simp [c3])]
          simp
      · rw [if_neg c2]
        by_cases c4 : (extnameLower filePath = ".docx" ∨ extnameLower filePath = ".doc")
            ∧ av.mammoth = true
        · rw [if_pos c4]
          cases o.word <;> simp
        · rw [if_neg c4]
          by_cases c5 : extnameLower filePath = ".csv" ∧ av.csvParse = true
          · rw [if_pos c5]
            cases o.readText with
            | error m => simp
            | ok t => cases o.csvRows <;> simp
          · rw [if_neg c5]
            by_cases c6 : extnameLower filePath ∈ SUPPORTED_IMAGE_EXTENSIONS
            · rw [if_pos c6]
              cases o.readBuffer <;> simp
            · rw [if_neg c6]
              simp
  · intro h1 h2 h3
    have e2 : ¬ extnameLower filePath = ".pdf" := fun hx => h2 (by simp [hx])
    have e3 : ¬ ((extnameLower filePath = ".docx" ∨ extnameLower filePath = ".doc")
        ∧ av.mammoth = true) := by
      rintro ⟨hx | hx, -⟩ <;> exact h2 (by simp [hx])
    have e4 : ¬ (extnameLower filePath = ".csv" ∧ av.csvParse = true) := by
      rintro ⟨hx, -⟩
      exact h2 (by simp [hx])
    simp only [extractTextFromFile]
    rw [if_neg h1, if_neg e2, if_neg e3, if_neg e4, if_neg h3]
  · intro m hext hread
    simp only [extractTextFromFile]
    rw [if_pos hext, hread]
  · intro m hext hav hbuf hpdf
    simp only [extractTextFromFile]
    have e1 : extnameLower filePath ∉ SUPPORTED_TEXT_EXTENSIONS := by
      rw [hext]; decide
    rw [if_neg e1, if_pos hext, if_neg (by simp [hav]), hbuf, hpdf]

/-- **C4, witness**: the failure reasons evaluated at concrete inputs — an
unsupported extension, a text read that throws, and a corrupt PDF whose
parser throws. -/
theorem extract_failure_reasons_hold :
    extractTextFromFile "weird.xyz" {} {}
        = { success := false, error := some "Unsupported file type: .xyz",
            fileName := "weird.xyz" }
      ∧ extractTextFromFile "locked.txt" {} { readText := .error "EACCES" }
        = { success := false, error := some "EACCES", fileName := "locked.txt" }
      ∧ extractTextFromFile "corrupt.pdf" {} { pdf := .error "Invalid PDF structure" }
        = { success := false, error := some "Invalid PDF structure",
            fileName := "corrupt.pdf" } := by
  refine ⟨?_, ?_, ?_⟩
  · have h := (extract_total_and_failure_reasons "weird.xyz" {} {}).2.1
      (by decide) (by decide) (by decide)
    simpa using h
  · have h := (extract_total_and_failure_reasons "locked.txt" {}
      { readText := .error "EACCES" }).2.2.1 "EACCES" (by decide) rfl
    simpa using h
  · have h := (extract_total_and_failure_reasons "corrupt.pdf" {}
      { pdf := .error "Invalid PDF structure" }).2.2.2 "Invalid PDF structure"
      (by decide) rfl rfl rfl
    simpa using h

theorem imageExt_disjoint :
    ∀ e ∈ SUPPORTED_IMAGE_EXTENSIONS,
      e ∉ SUPPORTED_TEXT_EXTENSIONS ∧ ¬ e = ".pdf" ∧ ¬ e = ".docx"
        ∧ ¬ e = ".doc" ∧ ¬ e = ".csv" := by decide

/-- **C9, counterexample.**  For an image whose OCR yields no text, the
result's text field is *not* left empty: it carries the fixed placeholder
string `"[Image file - OCR found no text, use vision API for analysis]"`
(alongside `hasOcrText = false` and the base64 payload).  Moreover the
OCR-usability test is merely "non-empty after trim", not a non-trivial
length: a single-character OCR result already sets `hasOcrText = true`. -/
theorem extract_image_text_not_left_empty :
    (extractTextFromFile "scan.png" {} { ocr := .ok "", base64Of := "QUJD" })
        = { success := true, text := some imageNoTextPlaceholder,
            type := some "image", hasOcrText := some false,
            base64 := some "QUJD", mimeType := some "image/png",
            fileName := "scan.png" }
      ∧ (extractTextFromFile "scan.png" {} { ocr := .ok "", base64Of := "QUJD" }).text
          ≠ some ""
      ∧ (extractTextFromFile "tiny.png" {} { ocr := .ok "x" }).hasOcrText
          = some true := by
  refine ⟨?_, ?_, ?_⟩ <;> decide

/-- **C9, amended.**  For every image extension, extraction reads the bytes
(base64 payload and MIME type are always included) and runs OCR first; if the
trimmed OCR text is non-empty it is returned as the primary text payload with
`hasOcrText = true`; otherwise — OCR text empty after trimming, or the OCR
call throwing (caught locally) — the text field carries the fixed
"OCR found no text" placeholder, `hasOcrText = false`, and the base64-encoded
raw bytes remain available for the vision-API fallback. -/
theorem extract_image_ocr_first (filePath : String) (av : LibAvail) (o : FileOracle)
    (himg : extnameLower filePath ∈ SUPPORTED_IMAGE_EXTENSIONS)
    (hbuf : o.readBuffer = .ok ()) (htes : av.tesseract = true) :
    (∀ t, o.ocr = .ok t → jsTrim t ≠ "" →
        extractTextFromFile filePath av o
          = { success := true, text := some (jsTrim t), type := some "image",
              hasOcrText := some true, base64 := some o.base64Of,
              mimeType := some (imageMime (extnameLower filePath)),
              fileName := basename filePath })
      ∧ (∀ t, o.ocr = .ok t → jsTrim t = "" →
          extractTextFromFile filePath av o
            = { success := true, text := some imageNoTextPlaceholder,
                type := some "image", hasOcrText := some false,
                base64 := some o.base64Of,
                mimeType := some (imageMime (extnameLower filePath)),
                fileName := basename filePath })
      ∧ (∀ m, o.ocr = .error m →
          extractTextFromFile filePath av o
            = { success := true, text := some imageNoTextPlaceholder,
                type := some "image", hasOcrText := some false,
                base64 := some o.base64Of,
                mimeType := some (imageMime (extnameLower filePath)),
                fileName := basename filePath }) := by
  obtain ⟨d1, d2, d3, d4, d5⟩ := imageExt_disjoint _ himg
  have step : extractTextFromFile filePath av o
      = (let ocrText := if av.tesseract then
            match o.ocr with
            | .ok t => jsTrim t
            | .error _ => ""
          else ""
         { success := true,
           text := some (if ocrText = "" then imageNoTextPlaceholder else ocrText),
           type := some "image",
           hasOcrText := some (decide (ocrText.length > 0)),
           base64 := some o.base64Of,
           mimeType := some (imageMime (extnameLower filePath)),
           fileName := basename filePath }) := by
    simp only [extractTextFromFile]
    rw [if_neg d1, if_neg d2,
      if_neg (by rintro ⟨hx | hx, -⟩; exacts [d3 hx, d4 hx]),
      if_neg (by rintro ⟨hx, -⟩; exact d5 hx),
      if_pos himg, hbuf]
  refine ⟨?_, ?_, ?_⟩
  · intro t hocr hne
    rw [step, hocr, htes]
    simp only [if_pos rfl]
    have hlen : 0 < (jsTrim t).length := strLength_pos_of_ne_empty hne
    simp [hne, decide_eq_true_eq, hlen]
  · intro t hocr heq
    rw [step, hocr, htes]
    simp [heq]
  · intro m hocr
    rw [step, hocr, htes]
    simp

/-- **C9, witness**: OCR-first behaviour at concrete images — usable OCR text
becomes the primary payload, an OCR failure falls back to the placeholder
with the bytes kept. -/
theorem extract_image_ocr_first_holds :
    extractTextFromFile "doc.jpg" {} { ocr := .ok " Total: 42 ", base64Of := "Zm9v" }
        = { success := true, text := some "Total: 42", type := some "image",
            hasOcrText := some true, base64 := some "Zm9v",
            mimeType := some "image/jpeg", fileName := "doc.jpg" }
      ∧ extractTextFromFile "photo.webp" {} { ocr := .error "worker crashed", base64Of := "YmFy" }
        = { success := true, text := some imageNoTextPlaceholder,
            type := some "image", hasOcrText := some false,
            base64 := some "YmFy", mimeType := some "image/webp",
            fileName := "photo.webp" } := by
  constructor
  · have h := (extract_image_ocr_first "doc.jpg" {}
      { ocr := .ok " Total: 42 ", base64Of := "Zm9v" } (by decide) rfl rfl).1
      " Total: 42 " rfl (by decide)
    simpa using h
  · have h := (extract_image_ocr_first "photo.webp" {}
      { ocr := .error "worker crashed", base64Of := "YmFy" } (by decide) rfl rfl).2.2
      "worker crashed" rfl
    simpa using h

theorem processAttachment_length {att : Attachment} {o : AttachOracle}
    (h1 : ¬ att.fileName = "") (h2 : ¬ att.savedPath = "") :
    (processAttachment att o).length = 1 := by
  simp only [processAttachment]
  rw [if_neg (by rintro (hx | hx); exacts [h1 hx, h2 hx])]
  cases o.extract with
  | err m => rfl
  | ok raw =>
    by_cases ht : jsTrim (capAttachmentContent raw) = "" <;> simp [ht]

theorem flatMap_summaries_length {l : List (Attachment × AttachOracle)}
    (h : ∀ p ∈ l, (processAttachment p.1 p.2).length = 1) :
    (l.flatMap (fun ao => processAttachment ao.1 ao.2)).length = l.length := by
  induction l with
  | nil => rfl
  | cons p rest ih =>
    show (processAttachment p.1 p.2
      ++ rest.flatMap (fun ao => processAttachment ao.1 ao.2)).length = _
    rw [List.length_append, h p (List.mem_cons_self _ _),
      ih (fun q hq => h q (List.mem_cons_of_mem _ hq))]
    simp only [List.length_cons]
    omega

/-- **C2.**  Per-attachment failures are isolated: for a Smart Shot run over
N harvested attachments (all with a name and a saved path), the handler
produces exactly N attachment summaries and still reaches prompt composition
and the main AI invocation; and each of the three per-file failure modes —
extraction throwing, no usable extracted text, and a failed per-file AI
summarisation — yields exactly one summary whose `summary` field carries the
corresponding bracketed error marker, after which processing continues. -/
theorem smartShot_attachment_isolation
    (e : EmailData) (af : AttachFetch) (oracles : List AttachOracle)
    (prompts : List Prompt) (promptIds : List String) (qn : String)
    (mainAI : String → AIResult) (fsE : String → Bool)
    (hok : af.success = true) (hid : ¬ e.entryId = "")
    (hlen : oracles.length = af.attachments.length)
    (hvalid : ∀ a ∈ af.attachments, ¬ a.fileName = "" ∧ ¬ a.savedPath = "") :
    (smartShotHandler e af oracles prompts promptIds qn mainAI fsE).1.attachmentSummaries.length
        = af.attachments.length
      ∧ PipeAction.invokeMainAI (buildUserContent
            ((buildCombinedPrompt prompts promptIds e qn).1
              ++ buildAttachmentContext
                (smartShotHandler e af oracles prompts promptIds qn mainAI fsE).1.attachmentSummaries)
            (some e))
          ∈ (smartShotHandler e af oracles prompts promptIds qn mainAI fsE).2
      ∧ (∀ att o, ¬ att.fileName = "" → ¬ att.savedPath = "" →
          (∀ m, o.extract = .err m →
            processAttachment att o
              = [{ filename := att.fileName,
                   summary := some ("[Error: " ++ m ++ "]"),
                   type := if extnameLower att.fileName = "" then "unknown"
                     else extnameLower att.fileName }])
          ∧ (∀ raw, o.extract = .ok raw → jsTrim (capAttachmentContent raw) = "" →
              processAttachment att o
                = [{ filename := att.fileName,
                     summary := some "[Could not extract text from this file]",
                     type := extnameLower att.fileName }])
          ∧ (∀ raw, o.extract = .ok raw → ¬ jsTrim (capAttachmentContent raw) = "" →
              o.aiSummary.success = false →
              processAttachment att o
                = [{ filename := att.fileName,
                     summary := some "[Error extracting key info]",
                     type := extnameLower att.fileName,
                     charCount := some (capAttachmentContent raw).length }])) := by
  have hatt : (if ¬ e.entryId = "" ∧ af.success = true then af.attachments else [])
      = af.attachments := if_pos ⟨hid, hok⟩
  refine ⟨?_, ?_, ?_⟩
  · show (((if ¬ e.entryId = "" ∧ af.success = true then af.attachments else []).zip
        oracles).flatMap (fun ao => processAttachment ao.1 ao.2)).length
      = af.attachments.length
    rw [hatt]
    rw [flatMap_summaries_length]
    · rw [List.length_zip, hlen, Nat.min_self]
    · intro p hp
      obtain ⟨hmem1, _⟩ := List.of_mem_zip hp
      exact processAttachment_length (hvalid p.1 hmem1).1 (hvalid p.1 hmem1).2
  · exact List.mem_cons_self _ _
  · intro att o h1 h2
    refine ⟨?_, ?_, ?_⟩
    · intro m hm
      simp only [processAttachment]
      rw [if_neg (by rintro (hx | hx); exacts [h1 hx, h2 hx]), hm]
    · intro raw hraw ht
      simp only [processAttachment]
      rw [if_neg (by rintro (hx | hx); exacts [h1 hx, h2 hx]), hraw]
      simp [ht]
    · intro raw hraw ht hai
      simp only [processAttachment]
      rw [if_neg (by rintro (hx | hx); exacts [h1 hx, h2 hx]), hraw]
      simp [ht, hai]

/-- **C2, witness**: a concrete run over three attachments where the middle
extraction throws and the last per-file AI call fails still yields three
summaries with the expected markers, and the main AI invocation is reached. -/
theorem smartShot_attachment_isolation_holds :
    (smartShotHandler exampleEmail { attachments := exampleAttachments }
        exampleOracles [] [] "" (fun _ => { success := true }) (fun _ => true)).1.attachmentSummaries.length
      = 3
      ∧ processAttachment { fileName := "b.pdf", savedPath := "/tmp/b.pdf" }
          { extract := .err "parse failed" }
        = [{ filename := "b.pdf", summary := some "[Error: parse failed]",
             type := ".pdf" }] := by
  have h := smartShot_attachment_isolation exampleEmail
    { attachments := exampleAttachments } exampleOracles [] [] ""
    (fun _ => { success := true }) (fun _ => true)
    rfl (by decide) (by decide) (by decide)
  refine ⟨by simpa using h.1, ?_⟩
  have h2 := (h.2.2 { fileName := "b.pdf", savedPath := "/tmp/b.pdf" }
    { extract := .err "parse failed" } (by decide) (by decide)).1 "parse failed" rfl
  simpa using h2

theorem createReply_not_mem_cleanups {attachments : List Attachment}
    {fsE : String → Bool} {a : String} {b : Option String} {c : Bool} :
    PipeAction.createReply a b c
      ∉ attachments.filterMap (fun x =>
          if ¬ x.savedPath = "" ∧ fsE x.savedPath = true then
            some (PipeAction.deleteTempFile x.savedPath)
          else none) := by
  intro hmem
  obtain ⟨x, _, heq⟩ := List.mem_filterMap.1 hmem
  by_cases hc : ¬ x.savedPath = "" ∧ fsE x.savedPath = true
  · rw [if_pos hc] at heq
    exact absurd heq (by simp)
  · rw [if_neg hc] at heq
    exact absurd heq (by simp)

/-- **C3.**  If the main AI invocation of a Smart Shot (or One Shot) run
fails, the run terminates with the provider's error (the result is exactly
the AI collaborator's failed result), no `createReply` call to the mail
client appears in the run's action trace, and the temporary attachment files
that exist on disk are still deleted (cleanup follows the AI call
unconditionally). -/
theorem aiFailure_no_delivery
    (e : EmailData) (af : AttachFetch) (oracles : List AttachOracle)
    (prompts : List Prompt) (promptIds : List String) (qn : String)
    (mainAI : String → AIResult) (fsE : String → Bool) :
    ((smartShotRun e af oracles prompts promptIds qn mainAI fsE).1.aiResult
        = mainAI (buildUserContent
            ((buildCombinedPrompt prompts promptIds e qn).1
              ++ buildAttachmentContext
                (smartShotRun e af oracles prompts promptIds qn mainAI fsE).1.attachmentSummaries)
            (some e)))
      ∧ ((smartShotRun e af oracles prompts promptIds qn mainAI fsE).1.aiResult.success = false →
          (∀ a b c, PipeAction.createReply a b c
              ∉ (smartShotRun e af oracles prompts promptIds qn mainAI fsE).2)
          ∧ (∀ att ∈ af.attachments, ¬ e.entryId = "" → af.success = true →
              ¬ att.savedPath = "" → fsE att.savedPath = true →
              PipeAction.deleteTempFile att.savedPath
                ∈ (smartShotRun e af oracles prompts promptIds qn mainAI fsE).2))
      ∧ ((oneShotRun prompts promptIds e qn mainAI).1.error
          = (mainAI (buildUserContent (buildCombinedPrompt prompts promptIds e qn).1
              (some e))).error)
      ∧ ((oneShotRun prompts promptIds e qn mainAI).1.success = false →
          ∀ a b c, PipeAction.createReply a b c
            ∉ (oneShotRun prompts promptIds e qn mainAI).2) := by
  refine ⟨rfl, ?_, rfl, ?_⟩
  · intro hfail
    have hrend : smartShotRenderer e
        (smartShotHandler e af oracles prompts promptIds qn mainAI fsE).1 = [] := by
      rw [smartShotRenderer]
      rw [if_neg (fun hcontra => hcontra rfl)]
      rw [if_pos (by simp only [Bool.not_eq_true]; exact hfail)]
    constructor
    · intro a b c hmem
      rcases List.mem_append.1 hmem with hm | hm
      · rcases List.mem_cons.1 hm with hm1 | hm1
        · exact absurd hm1 (by simp)
        · exact createReply_not_mem_cleanups hm1
      · rw [hrend] at hm
        exact absurd hm (by simp)
    · intro att hatt hid hok hpath hfs
      apply List.mem_append.2
      refine Or.inl (List.mem_cons_of_mem _ ?_)
      show PipeAction.deleteTempFile att.savedPath ∈
        (if ¬ e.entryId = "" ∧ af.success = true then af.attachments else []).filterMap _
      rw [if_pos ⟨hid, hok⟩]
      exact List.mem_filterMap.2 ⟨att, hatt, by rw [if_pos ⟨hpath, hfs⟩]⟩
  · intro hfail a b c hmem
    have hrend : oneShotRenderer e
        (processWithMultiPrompts prompts promptIds e qn mainAI).1 = [] := by
      rw [oneShotRenderer]
      rw [if_pos (by simp only [Bool.not_eq_true]; exact hfail)]
    rcases List.mem_append.1 hmem with hm | hm
    · have hm2 : PipeAction.createReply a b c
          ∈ [PipeAction.invokeMainAI
              (buildUserContent (buildCombinedPrompt prompts promptIds e qn).1 (some e))] := hm
      simp at hm2
    · rw [hrend] at hm
      exact absurd hm (by simp)

/-- **C3, witness**: a concrete Smart Shot run whose AI invocation times out
makes no `createReply` call, and the temp file of each harvested attachment
is still deleted. -/
theorem aiFailure_no_delivery_holds :
    (∀ a b c, PipeAction.createReply a b c
        ∉ (smartShotRun exampleEmail { attachments := exampleAttachments }
            exampleOracles [] [] ""
            (fun _ => { success := false, error := some "timeout of 120000ms exceeded" })
            (fun _ => true)).2)
      ∧ PipeAction.deleteTempFile "/tmp/b.pdf"
          ∈ (smartShotRun exampleEmail { attachments := exampleAttachments }
              exampleOracles [] [] ""
              (fun _ => { success := false, error := some "timeout of 120000ms exceeded" })
              (fun _ => true)).2 := by
  have h := (aiFailure_no_delivery exampleEmail { attachments := exampleAttachments }
    exampleOracles [] [] ""
    (fun _ => { success := false, error := some "timeout of 120000ms exceeded" })
    (fun _ => true)).2.1 rfl
  refine ⟨h.1, ?_⟩
  have h2 := h.2 { fileName := "b.pdf", savedPath := "/tmp/b.pdf" }
    (by decide) (by decide) rfl (by decide) rfl
  simpa using h2

end GrokCompanion
